import Mathlib

/-! LDC IR-to-object cache (`driver/ir2obj_cache.cpp`)

A shallow embedding of the cache functions of `driver/ir2obj_cache.cpp`:
`calculateModuleHash`, `storeCacheFileName`, `cacheLookup`, `cacheObjectFile`
and `recoverObjectFile`, together with the parts of the LLVM support library
they call (`raw_ostream`, `llvm::sys::path::append`, `llvm::sys::fs`).

Conventions of the embedding:
* byte strings (`const char *`, bitcode) are lists of `UInt8`; path strings
  (`std::string`, `StringRef`, `SmallString`) are lists of `Char`;
* the MD5 digest (`llvm::MD5`, external) is a parameter `digest`;
* the file system is a map from path strings to nodes; a path is identified
  by its string, directories have no child structure, and failures that the
  node map does not explain (permissions, over-long paths) are the marks
  `inaccessible` and `readOnly` of the state;
* `create_link` makes a symbolic link on a Unix host and a hard link on a
  Windows host; a symbolic link holds its target text, which is read from the
  directory of the link unless it is absolute, a hard link names another path
  of the same file; `exists` and the opening of a file follow links, `remove`,
  `create_directory` and `create_link` act on the node at the path itself;
* `copy_file` opens the source, then opens the destination (creating or
  truncating it), then copies: a failure after the destination is opened
  leaves it empty;
* `fatal()` ends the process: it is the `fatal` outcome carrying the state at
  the point of exit.
-/

namespace Ir2objCache

/-! ## Identity hasher -/

/-- A byte string. -/
abbrev Bytes := List UInt8

/-- A path or key string. -/
abbrev Path := List Char

/-- The class `raw_hash_ostream`: an unbuffered stream whose `write_impl`
passes every chunk to `hasher.update`.  The state of the `llvm::MD5` hasher is
represented by the bytes it has been fed so far. -/
structure raw_hash_ostream where
  /-- Bytes passed to `hasher.update`, in order. -/
  hasher : Bytes
deriving DecidableEq, Repr

/-- The constructor `raw_hash_ostream()`: a fresh hasher. -/
def raw_hash_ostream.init : raw_hash_ostream := ⟨[]⟩

/-- The method `write_impl(ptr, size)`: `hasher.update` on the chunk. -/
def raw_hash_ostream.write_impl (os : raw_hash_ostream) (chunk : Bytes) : raw_hash_ostream :=
  ⟨os.hasher ++ chunk⟩

/-- The method `resultAsString`: `hasher.final` followed by
`MD5::stringifyResult`; `digest` is the composition of the two. -/
def raw_hash_ostream.resultAsString (digest : Bytes → Path) (os : raw_hash_ostream) : Path :=
  digest os.hasher

/-- The four version strings written by `calculateModuleHash`
(`global.ldc_version`, `global.version`, `global.llvm_version`,
`ldc::built_with_Dcompiler_version`); each is the byte content of a C string. -/
structure Fingerprint where
  ldc_version : Bytes
  version : Bytes
  llvm_version : Bytes
  built_with_Dcompiler_version : Bytes
deriving DecidableEq, Repr

/-- The call `llvm::WriteBitcodeToFile(m, hash_os)`: the bitcode of the module
is written to the stream; `bitcode` is the serialized module. -/
def WriteBitcodeToFile (bitcode : Bytes) (os : raw_hash_ostream) : raw_hash_ostream :=
  os.write_impl bitcode

/-- The stream state of `calculateModuleHash` just before `resultAsString`:
the four `operator<<` calls of lines 80-81, then `WriteBitcodeToFile`. -/
def calculateModuleHash_stream (g : Fingerprint) (bitcode : Bytes) : raw_hash_ostream :=
  let hash_os := raw_hash_ostream.init
  let hash_os := hash_os.write_impl g.ldc_version
  let hash_os := hash_os.write_impl g.version
  let hash_os := hash_os.write_impl g.llvm_version
  let hash_os := hash_os.write_impl g.built_with_Dcompiler_version
  WriteBitcodeToFile bitcode hash_os

/-- The function `ir2obj::calculateModuleHash`: the key string of a module. -/
def calculateModuleHash (digest : Bytes → Path) (g : Fingerprint) (bitcode : Bytes) : Path :=
  (calculateModuleHash_stream g bitcode).resultAsString digest

/-- A digest that is injective: every byte becomes the character with the
same code.  It is used to instantiate statements that assume an injective
digest. -/
def plainDigest (bs : Bytes) : Path := bs.map fun b => Char.ofNat b.toNat

/-! ## Entry file name -/

/-- Configuration read by the cache functions. -/
structure Config where
  /-- The option `opts::ir2objCacheDir`. -/
  ir2objCacheDir : Path
  /-- The value of `global.params.targetTriple->isOSWindows()`. -/
  targetIsWindows : Bool
  /-- The constant `global.obj_ext`. -/
  obj_ext : Path
  /-- The constant `global.obj_ext_alt`. -/
  obj_ext_alt : Path
  /-- Whether LLVM was built for a Windows host (`LLVM_ON_WIN32`). -/
  hostIsWindows : Bool
deriving DecidableEq, Repr

/-- The function `llvm::sys::path::is_separator`. -/
def is_separator (windows : Bool) (c : Char) : Bool :=
  c == '/' || (windows && c == Char.ofNat 92)

/-- The constant `llvm::sys::path::preferred_separator`. -/
def preferred_separator (windows : Bool) : Char :=
  if windows then Char.ofNat 92 else '/'

/-- The helper `find_first_component` of LLVM's `Path.cpp`. -/
def find_first_component (windows : Bool) (path : Path) : Path :=
  if path.isEmpty then []
  else if windows && decide (2 ≤ path.length) && (path.head?.any Char.isAlpha)
      && (path.get? 1 == some ':') then path.take 2
  else if decide (2 < path.length) && path.head?.any (is_separator windows)
      && (path.get? 0 == path.get? 1)
      && !((path.get? 2).any (is_separator windows)) then
    path.take 2 ++ (path.drop 2).takeWhile fun c => !is_separator windows c
  else if path.head?.any (is_separator windows) then path.take 1
  else path.takeWhile fun c => !is_separator windows c

/-- The function `llvm::sys::path::has_root_name`. -/
def has_root_name (windows : Bool) (path : Path) : Bool :=
  if path.isEmpty then false
  else
    let b := find_first_component windows path
    let has_net := decide (2 < b.length) && b.head?.any (is_separator windows)
      && (b.get? 1 == b.get? 0)
    let has_drive := windows && (b.getLast? == some ':')
    has_net || has_drive

/-- The function `llvm::sys::path::append` with one component. -/
def path_append (windows : Bool) (path component : Path) : Path :=
  let path_has_sep := path.getLast?.any (is_separator windows)
  let component_has_sep := component.head?.any (is_separator windows)
  let is_root_name := has_root_name windows component
  if path_has_sep then
    path ++ component.dropWhile (is_separator windows)
  else if !component_has_sep && !(path.isEmpty || is_root_name) then
    path ++ [preferred_separator windows] ++ component
  else
    path ++ component

/-- The function `cacheObjectExtension`. -/
def cacheObjectExtension (cfg : Config) : Path :=
  if cfg.targetIsWindows then cfg.obj_ext_alt else cfg.obj_ext

/-- The literal `"ircache_"`. -/
def ircachePrefix : Path := ['i', 'r', 'c', 'a', 'c', 'h', 'e', '_']

/-- The component built in `storeCacheFileName`:
`Twine("ircache_") + cacheObjectHash + "." + cacheObjectExtension()`. -/
def cacheFileComponent (cfg : Config) (cacheObjectHash : Path) : Path :=
  ircachePrefix ++ cacheObjectHash ++ ['.'] ++ cacheObjectExtension cfg

/-- The function `storeCacheFileName`: the resulting `filePath`. -/
def storeCacheFileName (cfg : Config) (cacheObjectHash : Path) : Path :=
  let filePath := cfg.ir2objCacheDir
  path_append cfg.hostIsWindows filePath (cacheFileComponent cfg cacheObjectHash)

/-! ## File system (the part of `llvm::sys::fs` used by the cache) -/

/-- What a path names: a regular file with its content, a directory, a
symbolic link with its target text, or a hard link to the file at another
path. -/
inductive Node where
  | file (content : Bytes)
  | dir
  | link (target : Path)
  | hardlink (target : Path)
deriving DecidableEq, Repr

/-- A file-system state.  `inaccessible p` marks a path on which every
operation fails (permission denied on the way to it, path too long);
`readOnly p` marks a path whose node can be neither created, opened for
writing nor removed; `noSpace p` marks a path at which a file can be opened for
writing but no byte can be written (device full, quota). -/
structure FS where
  nodes : Path → Option Node
  inaccessible : Path → Bool
  readOnly : Path → Bool
  noSpace : Path → Bool

/-- The state with the node at `p` replaced by `n`. -/
def FS.set (fs : FS) (p : Path) (n : Node) : FS :=
  { fs with nodes := fun q => if q = p then some n else fs.nodes q }

/-- The state with the node at `p` deleted. -/
def FS.erase (fs : FS) (p : Path) : FS :=
  { fs with nodes := fun q => if q = p then none else fs.nodes q }

/-- Bound on the number of links followed when a path is opened. -/
def maxLinks : Nat := 40

/-- The directory part of a path: the path up to and including its last `/`
(empty when it has none). -/
def dirPart (p : Path) : Path :=
  (p.reverse.dropWhile fun c => c != '/').reverse

/-- The path that a symbolic link at `p` with target text `t` leads to: `t`
itself when it is absolute, otherwise `t` read from the directory of the
link. -/
def symlinkTarget (p t : Path) : Path :=
  if t.head? = some '/' then t else dirPart p ++ t

/-- The path that the node at `p` leads to, when that node is a link. -/
def FS.linkTarget (fs : FS) (p : Path) : Option Path :=
  match fs.nodes p with
  | some (Node.link t) => some (symlinkTarget p t)
  | some (Node.hardlink t) => some t
  | _ => none

/-- The path at which opening `p` arrives after following links: the first
path on the chain that is not a link (it may name nothing).  The result is
`none` when a path on the chain is inaccessible or the chain is too long. -/
def FS.resolve (fs : FS) : Nat → Path → Option Path
  | 0, _ => none
  | n + 1, p =>
    if fs.inaccessible p then none
    else match fs.linkTarget p with
      | some t => fs.resolve n t
      | none => some p

/-- The paths visited, in order, when `p` is resolved. -/
def FS.visited (fs : FS) : Nat → Path → List Path
  | 0, _ => []
  | n + 1, p =>
    if fs.inaccessible p then [p]
    else match fs.linkTarget p with
      | some t => p :: fs.visited n t
      | none => [p]

/-- The content read when `p` is opened for reading: the content of the
regular file it resolves to. -/
def FS.readFile (fs : FS) (p : Path) : Option Bytes :=
  match fs.resolve maxLinks p with
  | some q =>
    match fs.nodes q with
    | some (Node.file c) => some c
    | _ => none
  | none => none

/-- The function `llvm::sys::fs::exists(path)`: true when the status query,
which follows links, succeeds and finds a node; every error counts as "does
not exist", and so does a link that leads to nothing. -/
def FS.exists (fs : FS) (p : Path) : Bool :=
  match fs.resolve maxLinks p with
  | some q => (fs.nodes q).isSome
  | none => false

/-- The function `llvm::sys::fs::create_directory(path)` with its default
`IgnoreExisting = true`: the flag is true when an error code is returned.
A node already at the path is not an error. -/
def FS.create_directory (fs : FS) (p : Path) : Bool × FS :=
  if fs.inaccessible p then (true, fs)
  else match fs.nodes p with
    | some _ => (false, fs)
    | none => if fs.readOnly p then (true, fs) else (false, fs.set p Node.dir)

/-- The function `llvm::sys::fs::copy_file(From, To)`: the flag is true when
an error code is returned.  The steps are those of LLVM's `Path.cpp`:
`openFileForRead(From)`, which needs an existing node; `openFileForWrite(To)`,
which follows links and creates the file or truncates it; then the loop that
reads the source and writes the destination.  A failure of either open changes
nothing; a failure in the loop (the source is a directory, no byte can be
written) leaves the destination empty.  When source and destination are the
same file, the source is read after the truncation and is empty. -/
def FS.copy_file (fs : FS) (src dst : Path) : Bool × FS :=
  match fs.resolve maxLinks src with
  | none => (true, fs)
  | some qs =>
    if (fs.nodes qs).isNone then (true, fs)
    else
      match fs.resolve maxLinks dst with
      | none => (true, fs)
      | some qd =>
        if fs.readOnly qd || fs.nodes qd == some Node.dir then (true, fs)
        else
          match (fs.set qd (Node.file [])).nodes qs with
          | some (Node.file c) =>
            if fs.noSpace qd && !c.isEmpty then (true, fs.set qd (Node.file []))
            else (false, (fs.set qd (Node.file [])).set qd (Node.file c))
          | _ => (true, fs.set qd (Node.file []))

/-- The function `llvm::sys::fs::remove(path)` with its default
`IgnoreNonExisting = true`: the flag is true when an error code is returned.
The node itself is removed, links are not followed. -/
def FS.remove (fs : FS) (p : Path) : Bool × FS :=
  if fs.inaccessible p then (true, fs)
  else match fs.nodes p with
    | none => (false, fs)
    | some _ => if fs.readOnly p then (true, fs) else (false, fs.erase p)

/-- The function `llvm::sys::fs::create_link(to, from)` (`target` is `to`):
the flag is true when an error code is returned.  On a Unix host the link is a
symbolic link holding the text `to`; on a Windows host (`hard`) it is a hard
link, which needs an existing file to link to.  A node already at `from` is an
error. -/
def FS.create_link (fs : FS) (hard : Bool) (target from_ : Path) : Bool × FS :=
  if fs.inaccessible from_ || fs.readOnly from_ then (true, fs)
  else match fs.nodes from_ with
    | some _ => (true, fs)
    | none =>
      if hard then
        if (fs.readFile target).isNone then (true, fs)
        else (false, fs.set from_ (Node.hardlink target))
      else (false, fs.set from_ (Node.link target))

/-! ## Compiler state and the cache operations -/

/-- A call into `llvm::sys::fs`, as recorded in the call log. -/
inductive FsCall where
  | exists (p : Path)
  | create_directory (p : Path)
  | copy_file (src dst : Path)
  | remove (p : Path)
  | create_link (target from_ : Path)
deriving DecidableEq, Repr

/-- The three diagnostics of the cache, with their `%s` arguments. -/
inductive Diagnostic where
  | unableToCreateCacheDirectory (dir : Path)
  | failedToCopyObjectFile (objectFile cacheFile : Path)
  | failedToLinkObjectFile (cacheFile objectFile : Path)
deriving DecidableEq, Repr

/-- The state the cache functions act on: the file system, the error state
of `Global` (`errors`, `gag`, `gaggedErrors`), the diagnostics printed, and the
log of file-system calls made so far. -/
structure World where
  fs : FS
  errors : Nat
  gag : Nat
  gaggedErrors : Nat
  diagnostics : List Diagnostic
  calls : List FsCall

/-- Modelled from the spec: the function `error(Loc(), ...)` of `ddmd/errors`,
which is not among the sources.  The Diagnostic Sink records and counts the
error; while gagged (`gag != 0`) it is counted in `gaggedErrors` and not
printed. -/
def error (w : World) (d : Diagnostic) : World :=
  if w.gag = 0 then { w with errors := w.errors + 1, diagnostics := w.diagnostics ++ [d] }
  else { w with gaggedErrors := w.gaggedErrors + 1 }

/-- How a call ends: it returns a value, or `fatal()` ends the process. -/
inductive Outcome (α : Type) where
  | returned (value : α) (w : World)
  | fatal (w : World)

/-- The state in which a call ends. -/
def Outcome.world {α : Type} : Outcome α → World
  | Outcome.returned _ w => w
  | Outcome.fatal w => w

/-- Whether the call ended in `fatal()`. -/
def Outcome.isFatal {α : Type} : Outcome α → Bool
  | Outcome.returned _ _ => false
  | Outcome.fatal _ => true

/-- The value returned, if the call returned. -/
def Outcome.value? {α : Type} : Outcome α → Option α
  | Outcome.returned a _ => some a
  | Outcome.fatal _ => none

/-- A call of `llvm::sys::fs::exists`. -/
def World.exists (w : World) (p : Path) : Bool × World :=
  (w.fs.exists p, { w with calls := w.calls ++ [FsCall.exists p] })

/-- A call of `llvm::sys::fs::create_directory`. -/
def World.create_directory (w : World) (p : Path) : Bool × World :=
  ((w.fs.create_directory p).1,
    { w with fs := (w.fs.create_directory p).2, calls := w.calls ++ [FsCall.create_directory p] })

/-- A call of `llvm::sys::fs::copy_file`. -/
def World.copy_file (w : World) (src dst : Path) : Bool × World :=
  ((w.fs.copy_file src dst).1,
    { w with fs := (w.fs.copy_file src dst).2, calls := w.calls ++ [FsCall.copy_file src dst] })

/-- A call of `llvm::sys::fs::remove`. -/
def World.remove (w : World) (p : Path) : Bool × World :=
  ((w.fs.remove p).1,
    { w with fs := (w.fs.remove p).2, calls := w.calls ++ [FsCall.remove p] })

/-- A call of `llvm::sys::fs::create_link`. -/
def World.create_link (w : World) (hard : Bool) (target from_ : Path) : Bool × World :=
  ((w.fs.create_link hard target from_).1,
    { w with fs := (w.fs.create_link hard target from_).2,
             calls := w.calls ++ [FsCall.create_link target from_] })

/-- The function `ir2obj::cacheLookup`; the empty path is the `""` result. -/
def cacheLookup (cfg : Config) (w : World) (cacheObjectHash : Path) : Outcome Path :=
  if cfg.ir2objCacheDir.isEmpty then Outcome.returned [] w
  else
    let r1 := w.exists cfg.ir2objCacheDir
    if !r1.1 then Outcome.returned [] r1.2
    else
      let filePath := storeCacheFileName cfg cacheObjectHash
      let r2 := r1.2.exists filePath
      if r2.1 then Outcome.returned filePath r2.2
      else Outcome.returned [] r2.2

/-- The directory step of `cacheObjectFile` (line 112-113): the condition
`!exists(dir) && create_directory(dir)`, with `create_directory` called only
when the first operand is true. -/
def cacheObjectFile_dirStep (cfg : Config) (w : World) : Bool × World :=
  let r1 := w.exists cfg.ir2objCacheDir
  if !r1.1 then r1.2.create_directory cfg.ir2objCacheDir else (false, r1.2)

/-- The function `ir2obj::cacheObjectFile`. -/
def cacheObjectFile (cfg : Config) (w : World) (objectFile cacheObjectHash : Path) :
    Outcome Unit :=
  if cfg.ir2objCacheDir.isEmpty then Outcome.returned () w
  else
    let r := cacheObjectFile_dirStep cfg w
    if r.1 then
      Outcome.fatal (error r.2 (Diagnostic.unableToCreateCacheDirectory cfg.ir2objCacheDir))
    else
      let cacheFile := storeCacheFileName cfg cacheObjectHash
      let r3 := r.2.copy_file objectFile cacheFile
      if r3.1 then
        Outcome.fatal (error r3.2 (Diagnostic.failedToCopyObjectFile objectFile cacheFile))
      else Outcome.returned () r3.2

/-- The function `ir2obj::recoverObjectFile`. -/
def recoverObjectFile (cfg : Config) (w : World) (cacheObjectHash objectFile : Path) :
    Outcome Unit :=
  let cacheFile := storeCacheFileName cfg cacheObjectHash
  let r1 := w.remove objectFile
  let r2 := r1.2.create_link cfg.hostIsWindows cacheFile objectFile
  if r2.1 then
    Outcome.fatal (error r2.2 (Diagnostic.failedToLinkObjectFile cacheFile objectFile))
  else Outcome.returned () r2.2

/-! ## Sample states -/

/-- A file system with no node and no mark. -/
def FS.empty : FS := ⟨fun _ => none, fun _ => false, fun _ => false, fun _ => false⟩

/-- A world over `fs` with no error recorded and no call made. -/
def World.init (fs : FS) : World := ⟨fs, 0, 0, 0, [], []⟩

/-- A Unix configuration with cache directory `cache`. -/
def sampleConfig : Config := ⟨['c', 'a', 'c', 'h', 'e'], false, ['o'], ['o', 'b', 'j'], false⟩

/-- The configuration `sampleConfig` with caching disabled. -/
def disabledConfig : Config := { sampleConfig with ir2objCacheDir := [] }

/-- A file system holding one object file `out.o` with content `[1, 2]`. -/
def sampleFS : FS := FS.empty.set ['o', 'u', 't', '.', 'o'] (Node.file [1, 2])

/-- The path `out.o`. -/
def outPath : Path := ['o', 'u', 't', '.', 'o']

/-- The entry path of key `k` under `sampleConfig`: `cache/ircache_k.o`. -/
def entryPathK : Path :=
  ['c', 'a', 'c', 'h', 'e', '/', 'i', 'r', 'c', 'a', 'c', 'h', 'e', '_', 'k', '.', 'o']

/-- The file system `sampleFS` with the directory `cache` and, in it, an entry
for key `k` with content `[9]`. -/
def cachedFS : FS :=
  (sampleFS.set ['c', 'a', 'c', 'h', 'e'] Node.dir).set entryPathK (Node.file [9])

/-- The file system `cachedFS` after `recoverObjectFile("k", "out.o")` on a Unix
host: `out.o` is a symbolic link with text `cache/ircache_k.o`. -/
def linkedOutFS : FS := cachedFS.set outPath (Node.link entryPathK)

/-- The file system `sampleFS` in which the cache directory path `cache` is a
symbolic link with text `nowhere`, which leads to nothing. -/
def danglingDirFS : FS :=
  sampleFS.set ['c', 'a', 'c', 'h', 'e'] (Node.link ['n', 'o', 'w', 'h', 'e', 'r', 'e'])

/-- The path `/out.o`. -/
def absOutPath : Path := ['/', 'o', 'u', 't', '.', 'o']

/-- A cache whose entry path of key `k` is a symbolic link to the regular file
`/out.o` (content `[9]`). -/
def entryViaOutFS : FS :=
  ((FS.empty.set absOutPath (Node.file [9])).set ['c', 'a', 'c', 'h', 'e'] Node.dir).set
    entryPathK (Node.link absOutPath)

/-- The path `out/U.o`. -/
def subdirOutPath : Path := ['o', 'u', 't', '/', 'U', '.', 'o']

/-- The file system `cachedFS` with a directory `out`. -/
def subdirFS : FS := cachedFS.set ['o', 'u', 't'] Node.dir

/-- The configuration `sampleConfig` on a Windows host and target. -/
def windowsConfig : Config := { sampleConfig with targetIsWindows := true, hostIsWindows := true }

theorem char_ofNat_toNat (n : Nat) (h : n < 256) : (Char.ofNat n).toNat = n := by
  have hv : n.isValidChar := Or.inl (by omega)
  simp [Char.ofNat, hv, Char.ofNatAux, Char.toNat, UInt32.toNat]

theorem plainDigest_injective : Function.Injective plainDigest := by
  intro xs ys h
  unfold plainDigest at h
  refine List.map_injective_iff.mpr ?_ h
  intro a b hab
  have h2 : (Char.ofNat a.toNat).toNat = (Char.ofNat b.toNat).toNat := by
    simpa using congrArg Char.toNat hab
  rw [char_ofNat_toNat _ (UInt8.toNat_lt_size a), char_ofNat_toNat _ (UInt8.toNat_lt_size b)] at h2
  exact UInt8.ext_iff.mpr h2

theorem calculateModuleHash_stream_hasher (g : Fingerprint) (b : Bytes) :
    (calculateModuleHash_stream g b).hasher
      = g.ldc_version ++ g.version ++ g.llvm_version ++ g.built_with_Dcompiler_version ++ b := by
  simp [calculateModuleHash_stream, WriteBitcodeToFile, raw_hash_ostream.write_impl,
    raw_hash_ostream.init]

theorem calculateModuleHash_eq_digest (digest : Bytes → Path) (g : Fingerprint) (b : Bytes) :
    calculateModuleHash digest g b
      = digest (g.ldc_version ++ g.version ++ g.llvm_version
          ++ g.built_with_Dcompiler_version ++ b) := by
  simp [calculateModuleHash, raw_hash_ostream.resultAsString, calculateModuleHash_stream_hasher]

theorem is_separator_i (w : Bool) : is_separator w 'i' = false := by
  cases w <;> decide

theorem cacheFileComponent_eq_cons (cfg : Config) (h : Path) :
    cacheFileComponent cfg h
      = 'i' :: 'r' :: (['c', 'a', 'c', 'h', 'e', '_'] ++ h ++ ['.'] ++ cacheObjectExtension cfg) := by
  simp [cacheFileComponent, ircachePrefix]

theorem path_append_component (w : Bool) (d rest : Path) :
    path_append w d ('i' :: rest) = d ++ 'i' :: rest
      ∨ path_append w d ('i' :: rest) = d ++ [preferred_separator w] ++ 'i' :: rest := by
  unfold path_append
  by_cases h1 : d.getLast?.any (is_separator w) = true
  · left
    simp [h1, List.dropWhile, is_separator_i]
  · by_cases h2 : (!(('i' :: rest).head?.any (is_separator w))
        && !(d.isEmpty || has_root_name w ('i' :: rest))) = true
    · right
      simp only [h1, h2, if_true, Bool.false_eq_true, if_false]
    · left
      simp only [h1, h2, Bool.false_eq_true, if_false]

theorem path_append_trailing_sep (w : Bool) (d rest : Path)
    (h1 : d.getLast?.any (is_separator w) = true) :
    path_append w d ('i' :: rest) = d ++ 'i' :: rest := by
  unfold path_append
  simp [h1, List.dropWhile, is_separator_i]

theorem has_root_name_unix (r : Path) : has_root_name false ('i' :: 'r' :: r) = false := by
  simp [has_root_name, find_first_component, is_separator, List.takeWhile]

theorem path_append_unix (d r : Path) (hne : d ≠ [])
    (h1 : d.getLast?.any (is_separator false) = false) :
    path_append false d ('i' :: 'r' :: r) = d ++ ['/'] ++ 'i' :: 'r' :: r := by
  unfold path_append
  have hd : d.isEmpty = false := by
    cases d with
    | nil => exact absurd rfl hne
    | cons a t => rfl
  rw [has_root_name_unix]
  simp [h1, hd, is_separator, preferred_separator]

theorem isEmpty_eq_false_of_ne_nil {α : Type} (l : List α) (h : l ≠ []) : l.isEmpty = false := by
  cases l with
  | nil => exact absurd rfl h
  | cons a t => rfl

theorem storeCacheFileName_ne_nil (cfg : Config) (h : Path) : storeCacheFileName cfg h ≠ [] := by
  unfold storeCacheFileName
  rw [cacheFileComponent_eq_cons]
  rcases path_append_component cfg.hostIsWindows cfg.ir2objCacheDir
    ('r' :: (['c', 'a', 'c', 'h', 'e', '_'] ++ h ++ ['.'] ++ cacheObjectExtension cfg)) with h1 | h1
  · rw [h1]; simp
  · rw [h1]; simp

theorem preferred_separator_ne_i (w : Bool) : preferred_separator w ≠ 'i' := by
  cases w <;> decide

/-- C1 (counterexample): with fingerprint components `[1]`, `[2]`, `[3]`, `[4]`
and bitcode `[5]` the hashed stream is not "bitcode first, then the
fingerprint": the stream starts with the fingerprint. -/
theorem calculateModuleHash_not_ir_first :
    (calculateModuleHash_stream ⟨[1], [2], [3], [4]⟩ [5]).hasher ≠ [5] ++ ([1] ++ [2] ++ [3] ++ [4])
      ∧ (calculateModuleHash_stream ⟨[1], [2], [3], [4]⟩ [5]).hasher = [1, 2, 3, 4, 5] := by
  decide

/-- C1 (amended): the byte stream hashed by `calculateModuleHash` is the
fingerprint components in the order `ldc_version`, `version`, `llvm_version`,
`built_with_Dcompiler_version`, followed by the module bitcode; the key is the
digest of exactly that stream. -/
theorem calculateModuleHash_order (digest : Bytes → Path) (g : Fingerprint) (b : Bytes) :
    (calculateModuleHash_stream g b).hasher
        = g.ldc_version ++ g.version ++ g.llvm_version ++ g.built_with_Dcompiler_version ++ b
      ∧ calculateModuleHash digest g b
        = digest (g.ldc_version ++ g.version ++ g.llvm_version
            ++ g.built_with_Dcompiler_version ++ b) := by
  exact ⟨calculateModuleHash_stream_hasher g b, calculateModuleHash_eq_digest digest g b⟩

/-- C2 (counterexample): the fingerprints `("1", "2", "", "")` and
`("12", "", "", "")` differ, yet with the same bitcode they are hashed as the
same byte stream, so every digest (the injective `plainDigest` included) gives
them the same key. -/
theorem calculateModuleHash_fingerprint_collision :
    (⟨[49], [50], [], []⟩ : Fingerprint) ≠ ⟨[49, 50], [], [], []⟩
      ∧ Function.Injective plainDigest
      ∧ (calculateModuleHash_stream ⟨[49], [50], [], []⟩ [7]).hasher
          = (calculateModuleHash_stream ⟨[49, 50], [], [], []⟩ [7]).hasher
      ∧ ∀ digest : Bytes → Path,
          calculateModuleHash digest ⟨[49], [50], [], []⟩ [7]
            = calculateModuleHash digest ⟨[49, 50], [], [], []⟩ [7] :=
  ⟨by decide, plainDigest_injective, by decide, fun _ => rfl⟩

/-- C2 (amended): with an injective digest, `calculateModuleHash` yields the
same key iff the hashed streams (the four fingerprint components concatenated
in order, then the bitcode) are equal; equal bitcode and equal fingerprints give
the same key, and for one bitcode two fingerprints give the same key iff the
concatenations of their components are equal. -/
theorem calculateModuleHash_same_key_iff (digest : Bytes → Path)
    (hinj : Function.Injective digest) (f1 f2 : Fingerprint) (b1 b2 : Bytes) :
    (calculateModuleHash digest f1 b1 = calculateModuleHash digest f2 b2 ↔
        f1.ldc_version ++ f1.version ++ f1.llvm_version ++ f1.built_with_Dcompiler_version ++ b1
          = f2.ldc_version ++ f2.version ++ f2.llvm_version
              ++ f2.built_with_Dcompiler_version ++ b2)
      ∧ (b1 = b2 ∧ f1 = f2 → calculateModuleHash digest f1 b1 = calculateModuleHash digest f2 b2)
      ∧ (calculateModuleHash digest f1 b1 = calculateModuleHash digest f2 b1 ↔
          f1.ldc_version ++ f1.version ++ f1.llvm_version ++ f1.built_with_Dcompiler_version
            = f2.ldc_version ++ f2.version ++ f2.llvm_version
                ++ f2.built_with_Dcompiler_version) := by
  have key : ∀ (g1 g2 : Fingerprint) (c1 c2 : Bytes),
      calculateModuleHash digest g1 c1 = calculateModuleHash digest g2 c2 ↔
        g1.ldc_version ++ g1.version ++ g1.llvm_version ++ g1.built_with_Dcompiler_version ++ c1
          = g2.ldc_version ++ g2.version ++ g2.llvm_version
              ++ g2.built_with_Dcompiler_version ++ c2 := by
    intro g1 g2 c1 c2
    rw [calculateModuleHash_eq_digest digest g1 c1, calculateModuleHash_eq_digest digest g2 c2]
    exact hinj.eq_iff
  refine ⟨key f1 f2 b1 b2, ?_, ?_⟩
  · rintro ⟨rfl, rfl⟩
    rfl
  · rw [key f1 f2 b1 b1]
    exact List.append_left_inj b1

/-- C2 (witness): the statement at the injective digest `plainDigest`. -/
theorem calculateModuleHash_same_key_iff_witness :
    Function.Injective plainDigest
      ∧ (calculateModuleHash plainDigest ⟨[49], [50], [], []⟩ [7]
          = calculateModuleHash plainDigest ⟨[49], [51], [], []⟩ [7] ↔
        ([49] ++ [50] ++ [] ++ [] : Bytes) = [49] ++ [51] ++ [] ++ []) :=
  ⟨plainDigest_injective,
    (calculateModuleHash_same_key_iff plainDigest plainDigest_injective
      ⟨[49], [50], [], []⟩ ⟨[49], [51], [], []⟩ [7] [7]).2.2⟩

/-! ## ## Claim C10 -/

/-- For the component of `storeCacheFileName`, `has_root_name` is true only on
a Windows host, when the part before the first separator ends in a colon. -/
theorem has_root_name_component (w : Bool) (r : Path) :
    has_root_name w ('i' :: 'r' :: r)
      = (w && (('i' :: 'r' :: r).takeWhile fun c => !is_separator w c).getLast? == some ':') := by
  have hi := is_separator_i w
  have hr : is_separator w 'r' = false := by cases w <;> decide
  have hb : find_first_component w ('i' :: 'r' :: r)
      = ('i' :: 'r' :: r).takeWhile fun c => !is_separator w c := by
    unfold find_first_component
    simp [hi]
  unfold has_root_name
  rw [hb]
  simp [List.takeWhile, hi, hr]

theorem takeWhile_eq_self_of_forall {α : Type} (p : α → Bool) (l : List α)
    (h : ∀ c ∈ l, p c = true) : l.takeWhile p = l := by
  induction l with
  | nil => rfl
  | cons a t ih =>
    have ha : p a = true := h a (List.mem_cons_self a t)
    simp only [List.takeWhile, ha]
    rw [ih (fun c hc => h c (List.mem_cons_of_mem a hc))]

/-- C10 (counterexample): for the key `a/b` (Unix host, cache directory
`cache`) the entry path is `cache/ircache_a/b.o`: the component contains a
separator, and the directory part of the entry path is `cache/ircache_a/`, a
sub-directory of the cache directory. -/
theorem storeCacheFileName_key_with_separator :
    storeCacheFileName sampleConfig ['a', '/', 'b']
        = ['c', 'a', 'c', 'h', 'e', '/', 'i', 'r', 'c', 'a', 'c', 'h', 'e', '_', 'a', '/', 'b',
            '.', 'o']
      ∧ (∃ c ∈ cacheFileComponent sampleConfig ['a', '/', 'b'], is_separator false c = true)
      ∧ dirPart (storeCacheFileName sampleConfig ['a', '/', 'b'])
          = ['c', 'a', 'c', 'h', 'e', '/', 'i', 'r', 'c', 'a', 'c', 'h', 'e', '_', 'a', '/']
      ∧ dirPart (storeCacheFileName sampleConfig ['a', 'b']) = ['c', 'a', 'c', 'h', 'e', '/'] := by
  refine ⟨by decide, ⟨'/', by decide, by decide⟩, by decide, by decide⟩

/-- C10 (amended): the entry path is a function of the cache directory `d` and
the key `h` alone: `path::append` of `d` and the single component
`"ircache_" ++ h ++ "." ++ ext`, where `ext` is `obj_ext_alt` for a Windows
target and `obj_ext` otherwise.  It is `d ++ component` when `d` ends in a
separator, when `d` is empty, or (Windows host) when the component up to its
first separator ends in a colon; otherwise it is `d`, one preferred separator,
and the component.  When key and extension contain no separator and the
extension does not end in a colon, the component contains no separator, so the
entry lies directly inside `d`. -/
theorem storeCacheFileName_layout (cfg : Config) (h : Path) :
    cacheObjectExtension cfg = (if cfg.targetIsWindows then cfg.obj_ext_alt else cfg.obj_ext)
      ∧ cacheFileComponent cfg h
          = ['i', 'r', 'c', 'a', 'c', 'h', 'e', '_'] ++ h ++ ['.'] ++ cacheObjectExtension cfg
      ∧ storeCacheFileName cfg h
          = (if cfg.ir2objCacheDir.getLast?.any (is_separator cfg.hostIsWindows) = true then
              cfg.ir2objCacheDir ++ cacheFileComponent cfg h
            else if cfg.ir2objCacheDir = []
                ∨ (cfg.hostIsWindows = true
                  ∧ ((cacheFileComponent cfg h).takeWhile
                      fun c => !is_separator cfg.hostIsWindows c).getLast? = some ':') then
              cfg.ir2objCacheDir ++ cacheFileComponent cfg h
            else
              cfg.ir2objCacheDir ++ [preferred_separator cfg.hostIsWindows]
                ++ cacheFileComponent cfg h)
      ∧ ((∀ c ∈ h ++ cacheObjectExtension cfg, is_separator cfg.hostIsWindows c = false) →
          (cacheObjectExtension cfg).getLast? ≠ some ':' →
          (∀ c ∈ cacheFileComponent cfg h, is_separator cfg.hostIsWindows c = false)
            ∧ storeCacheFileName cfg h
                = (if cfg.ir2objCacheDir = []
                      ∨ cfg.ir2objCacheDir.getLast?.any (is_separator cfg.hostIsWindows) = true then
                    cfg.ir2objCacheDir ++ cacheFileComponent cfg h
                  else
                    cfg.ir2objCacheDir ++ [preferred_separator cfg.hostIsWindows]
                      ++ cacheFileComponent cfg h)) := by
  have hform : storeCacheFileName cfg h
      = (if cfg.ir2objCacheDir.getLast?.any (is_separator cfg.hostIsWindows) = true then
          cfg.ir2objCacheDir ++ cacheFileComponent cfg h
        else if cfg.ir2objCacheDir = []
            ∨ (cfg.hostIsWindows = true
              ∧ ((cacheFileComponent cfg h).takeWhile
                  fun c => !is_separator cfg.hostIsWindows c).getLast? = some ':') then
          cfg.ir2objCacheDir ++ cacheFileComponent cfg h
        else
          cfg.ir2objCacheDir ++ [preferred_separator cfg.hostIsWindows]
            ++ cacheFileComponent cfg h) := by
    unfold storeCacheFileName path_append
    rw [cacheFileComponent_eq_cons, has_root_name_component]
    by_cases h1 : cfg.ir2objCacheDir.getLast?.any (is_separator cfg.hostIsWindows) = true
    · simp [h1, List.dropWhile, is_separator_i]
    · simp only [h1, Bool.false_eq_true, if_false]
      by_cases h2 : cfg.ir2objCacheDir = []
      · simp [h2, is_separator_i]
      · have h2e := isEmpty_eq_false_of_ne_nil _ h2
        by_cases h3 : cfg.hostIsWindows = true
        · by_cases h4 : (('i' :: 'r' :: (['c', 'a', 'c', 'h', 'e', '_'] ++ h ++ ['.']
              ++ cacheObjectExtension cfg)).takeWhile
                fun c => !is_separator cfg.hostIsWindows c).getLast? = some ':'
          · simp [h2, h2e, h3, h4, is_separator_i]
          · simp [h2, h2e, h3, h4, is_separator_i]
        · simp [h2, h2e, h3, is_separator_i]
  refine ⟨rfl, rfl, hform, ?_⟩
  intro hs hcolon
  have hsep : ∀ w : Bool, is_separator w 'i' = false ∧ is_separator w 'r' = false
      ∧ is_separator w 'c' = false ∧ is_separator w 'a' = false
      ∧ is_separator w 'h' = false ∧ is_separator w 'e' = false
      ∧ is_separator w '_' = false ∧ is_separator w '.' = false := by
    intro w; cases w <;> decide
  obtain ⟨h1, h2, h3, h4, h5, h6, h7, h8⟩ := hsep cfg.hostIsWindows
  have hall : ∀ c ∈ cacheFileComponent cfg h, is_separator cfg.hostIsWindows c = false := by
    intro c hc
    simp only [cacheFileComponent, ircachePrefix, List.mem_append, List.mem_cons,
      List.mem_singleton, List.not_mem_nil, or_false] at hc
    rcases hc with ((hc | hc) | hc) | hc
    · rcases hc with rfl | rfl | rfl | rfl | rfl | rfl | rfl | rfl <;> assumption
    · exact hs c (List.mem_append_left _ hc)
    · rw [hc]; exact h8
    · exact hs c (List.mem_append_right _ hc)
  refine ⟨hall, ?_⟩
  have htw : (cacheFileComponent cfg h).takeWhile (fun c => !is_separator cfg.hostIsWindows c)
      = cacheFileComponent cfg h :=
    takeWhile_eq_self_of_forall _ _ (fun c hc => by simp [hall c hc])
  have hlast : (cacheFileComponent cfg h).getLast? ≠ some ':' := by
    unfold cacheFileComponent
    cases he : cacheObjectExtension cfg with
    | nil => simp
    | cons a t =>
      rw [he] at hcolon
      rw [List.getLast?_append_of_ne_nil _ (by simp)]
      exact hcolon
  rw [hform, htw]
  by_cases g1 : cfg.ir2objCacheDir.getLast?.any (is_separator cfg.hostIsWindows) = true
  · simp [g1]
  · by_cases g2 : cfg.ir2objCacheDir = []
    · simp [g2]
    · simp [g1, g2, hlast]

/-- C10 (witness): key `ab` under a Windows host and target with cache directory
`cache`: the entry is `cache\ircache_ab.obj`. -/
theorem storeCacheFileName_layout_witness :
    (∀ c ∈ ['a', 'b'] ++ cacheObjectExtension windowsConfig, is_separator true c = false)
      ∧ (cacheObjectExtension windowsConfig).getLast? ≠ some ':'
      ∧ storeCacheFileName windowsConfig ['a', 'b']
          = ['c', 'a', 'c', 'h', 'e'] ++ [Char.ofNat 92]
              ++ ['i', 'r', 'c', 'a', 'c', 'h', 'e', '_', 'a', 'b', '.', 'o', 'b', 'j'] :=
  ⟨by decide, by decide,
    ((storeCacheFileName_layout windowsConfig ['a', 'b']).2.2.2 (by decide) (by decide)).2.trans
      (by decide)⟩

/-! ## ## Helper lemmas: state -/

@[simp] theorem error_fs (w : World) (d : Diagnostic) : (error w d).fs = w.fs := by
  unfold error; split <;> rfl

@[simp] theorem error_calls (w : World) (d : Diagnostic) : (error w d).calls = w.calls := by
  unfold error; split <;> rfl

theorem error_count (w : World) (d : Diagnostic) :
    (error w d).errors + (error w d).gaggedErrors = w.errors + w.gaggedErrors + 1 := by
  unfold error; split <;> simp <;> omega

theorem Outcome.returned_of_not_fatal (o : Outcome Unit) (h : o.isFatal = false) :
    o = Outcome.returned () o.world := by
  cases o with
  | returned a w => rfl
  | fatal w => simp [Outcome.isFatal] at h

/-! ## ## Helper lemmas: file system -/

theorem FS.set_nodes (fs : FS) (p : Path) (n : Node) (x : Path) :
    (fs.set p n).nodes x = if x = p then some n else fs.nodes x := rfl

theorem FS.set_set (fs : FS) (p : Path) (a b : Node) : (fs.set p a).set p b = fs.set p b := by
  cases fs with
  | mk nodes inacc ro ns =>
    simp only [FS.set, FS.mk.injEq, and_true]
    funext q
    by_cases hq : q = p
    · simp [hq]
    · simp [hq]

theorem FS.linkTarget_of_nodes_eq (fs fs2 : FS) (x : Path) (h : fs2.nodes x = fs.nodes x) :
    fs2.linkTarget x = fs.linkTarget x := by
  unfold FS.linkTarget
  rw [h]

theorem FS.linkTarget_set_ne (fs : FS) (q : Path) (nd : Node) (x : Path) (hx : x ≠ q) :
    (fs.set q nd).linkTarget x = fs.linkTarget x :=
  FS.linkTarget_of_nodes_eq _ _ _ (by simp [FS.set_nodes, hx])

theorem FS.linkTarget_set_file (fs : FS) (q : Path) (c : Bytes) :
    (fs.set q (Node.file c)).linkTarget q = none := by
  simp [FS.linkTarget, FS.set_nodes]

theorem FS.linkTarget_set_dir (fs : FS) (q : Path) :
    (fs.set q Node.dir).linkTarget q = none := by
  simp [FS.linkTarget, FS.set_nodes]

theorem FS.linkTarget_of_none (fs : FS) (q : Path) (h : fs.nodes q = none) :
    fs.linkTarget q = none := by
  simp [FS.linkTarget, h]

theorem FS.linkTarget_of_file (fs : FS) (q : Path) (c : Bytes) (h : fs.nodes q = some (Node.file c)) :
    fs.linkTarget q = none := by
  simp [FS.linkTarget, h]

theorem FS.linkTarget_of_dir (fs : FS) (q : Path) (h : fs.nodes q = some Node.dir) :
    fs.linkTarget q = none := by
  simp [FS.linkTarget, h]

/-- Resolution ends at a path that is accessible and is not a link. -/
theorem FS.resolve_end (fs : FS) :
    ∀ (n : Nat) (x q : Path), fs.resolve n x = some q →
      fs.linkTarget q = none ∧ fs.inaccessible q = false := by
  intro n
  induction n with
  | zero => intro x q h; simp [FS.resolve] at h
  | succ n ih =>
    intro x q h
    unfold FS.resolve at h
    by_cases hi : fs.inaccessible x = true
    · simp [hi] at h
    · simp only [hi, Bool.false_eq_true, if_false] at h
      cases hl : fs.linkTarget x with
      | none =>
        simp only [hl, Option.some.injEq] at h
        subst h
        exact ⟨hl, by simpa using hi⟩
      | some t =>
        simp only [hl] at h
        exact ih t q h

/-- A path that is not a link resolves to itself. -/
theorem FS.resolve_nonlink (fs : FS) (n : Nat) (e : Path) (h : fs.linkTarget e = none) :
    fs.resolve (n + 1) e = if fs.inaccessible e = true then none else some e := by
  unfold FS.resolve
  simp [h]

/-- Replacing a node that is not a link by a node that is not a link changes
no resolution. -/
theorem FS.resolve_set_nonlink (fs : FS) (q : Path) (nd : Node)
    (h1 : fs.linkTarget q = none) (h2 : (fs.set q nd).linkTarget q = none) :
    ∀ (n : Nat) (x : Path), (fs.set q nd).resolve n x = fs.resolve n x := by
  intro n
  induction n with
  | zero => intro x; rfl
  | succ n ih =>
    intro x
    unfold FS.resolve
    have hin : (fs.set q nd).inaccessible x = fs.inaccessible x := rfl
    rw [hin]
    by_cases hi : fs.inaccessible x = true
    · simp [hi]
    · simp only [hi, Bool.false_eq_true, if_false]
      by_cases hx : x = q
      · subst hx
        rw [h1, h2]
      · rw [FS.linkTarget_set_ne fs q nd x hx]
        cases hl : fs.linkTarget x with
        | none => rfl
        | some t => exact ih t

theorem FS.resolve_mem_visited (fs : FS) :
    ∀ (n : Nat) (x r : Path), fs.resolve n x = some r → r ∈ fs.visited n x := by
  intro n
  induction n with
  | zero => intro x r h; simp [FS.resolve] at h
  | succ n ih =>
    intro x r h
    unfold FS.resolve at h
    unfold FS.visited
    by_cases hi : fs.inaccessible x = true
    · simp [hi] at h
    · simp only [hi, Bool.false_eq_true, if_false] at h ⊢
      cases hl : fs.linkTarget x with
      | none =>
        simp only [hl, Option.some.injEq] at h
        subst h
        simp
      | some t =>
        simp only [hl] at h
        simp only [List.mem_cons]
        exact Or.inr (ih t r h)

/-- Two states that agree on nodes and marks away from `dest` resolve alike
every path whose resolution does not visit `dest`. -/
theorem FS.resolve_congr (fs fs2 : FS) (dest : Path)
    (hn : ∀ p, p ≠ dest → fs2.nodes p = fs.nodes p)
    (hi : fs2.inaccessible = fs.inaccessible) :
    ∀ (n : Nat) (x : Path), dest ∉ fs.visited n x → fs2.resolve n x = fs.resolve n x := by
  intro n
  induction n with
  | zero => intro x _; rfl
  | succ n ih =>
    intro x hv
    unfold FS.visited at hv
    unfold FS.resolve
    rw [hi]
    by_cases hx : fs.inaccessible x = true
    · simp [hx]
    · simp only [hx, Bool.false_eq_true, if_false] at hv ⊢
      have hne : x ≠ dest := by
        intro heq
        apply hv
        cases hl : fs.linkTarget x with
        | none => simp [heq]
        | some t => simp [heq]
      rw [FS.linkTarget_of_nodes_eq fs fs2 x (hn x hne)]
      cases hl : fs.linkTarget x with
      | none => rfl
      | some t =>
        simp only [hl, List.mem_cons, not_or] at hv
        exact ih t hv.2

theorem FS.exists_inaccessible (fs : FS) (p : Path) (h : fs.inaccessible p = true) :
    fs.exists p = false := by
  unfold FS.exists
  show (match fs.resolve (39 + 1) p with
    | some q => (fs.nodes q).isSome
    | none => false) = false
  unfold FS.resolve
  simp [h]

theorem FS.exists_nonlink (fs : FS) (e : Path) (h : fs.linkTarget e = none) :
    fs.exists e = (!fs.inaccessible e && (fs.nodes e).isSome) := by
  unfold FS.exists
  show (match fs.resolve (39 + 1) e with
    | some q => (fs.nodes q).isSome
    | none => false) = _
  rw [FS.resolve_nonlink fs 39 e h]
  by_cases hi : fs.inaccessible e = true
  · simp [hi]
  · simp [hi]

/-- Replacing a non-link node at `q` by a non-link node changes neither the
existence nor the content of a path that does not resolve to `q`. -/
theorem FS.other_path_set (fs : FS) (e q : Path) (nd : Node)
    (h1 : fs.linkTarget q = none) (h2 : (fs.set q nd).linkTarget q = none)
    (hsep : fs.resolve maxLinks e ≠ some q) :
    (fs.set q nd).exists e = fs.exists e ∧ (fs.set q nd).readFile e = fs.readFile e := by
  unfold FS.exists FS.readFile
  rw [FS.resolve_set_nonlink fs q nd h1 h2]
  cases hr : fs.resolve maxLinks e with
  | none => exact ⟨rfl, rfl⟩
  | some r =>
    have hne : r ≠ q := by
      intro heq
      subst heq
      exact hsep hr
    simp [FS.set_nodes, hne]

/-- Creating a directory node at a path that names nothing changes no file
content. -/
theorem FS.readFile_set_dir (fs : FS) (p : Path) (hp : fs.nodes p = none) (x : Path) :
    (fs.set p Node.dir).readFile x = fs.readFile x := by
  unfold FS.readFile
  rw [FS.resolve_set_nonlink fs p Node.dir (FS.linkTarget_of_none fs p hp)
    (FS.linkTarget_set_dir fs p)]
  cases hr : fs.resolve maxLinks x with
  | none => rfl
  | some q =>
    simp only
    by_cases hq : q = p
    · subst hq; simp [FS.set_nodes, hp]
    · simp [FS.set_nodes, hq]

/-- After a file is written at the path `q` that `e` resolves to, reading `e`
yields the content written, and `e` exists. -/
theorem FS.readFile_set_file (fs : FS) (e q : Path) (c : Bytes)
    (hr : fs.resolve maxLinks e = some q) :
    (fs.set q (Node.file c)).readFile e = some c
      ∧ (fs.set q (Node.file c)).exists e = true
      ∧ (fs.set q (Node.file c)).resolve maxLinks e = some q := by
  have h1 := (FS.resolve_end fs _ _ _ hr).1
  have hres := FS.resolve_set_nonlink fs q (Node.file c) h1 (FS.linkTarget_set_file fs q c)
    maxLinks e
  unfold FS.readFile FS.exists
  rw [hres, hr]
  simp [FS.set_nodes]

/-- Writing a node that is not a link over one that is not a link keeps every
existing path existing. -/
theorem FS.exists_set (fs : FS) (q : Path) (nd : Node) (x : Path)
    (h1 : fs.linkTarget q = none) (h2 : (fs.set q nd).linkTarget q = none)
    (h : fs.exists x = true) : (fs.set q nd).exists x = true := by
  unfold FS.exists at *
  rw [FS.resolve_set_nonlink fs q nd h1 h2]
  cases hr : fs.resolve maxLinks x with
  | none => simp [hr] at h
  | some r =>
    simp only [hr] at h ⊢
    by_cases hq : r = q
    · simp [FS.set_nodes, hq]
    · simpa [FS.set_nodes, hq] using h

theorem FS.exists_of_readFile (fs : FS) (e : Path) (c : Bytes) (h : fs.readFile e = some c) :
    fs.exists e = true := by
  unfold FS.readFile at h
  unfold FS.exists
  cases hr : fs.resolve maxLinks e with
  | none => simp [hr] at h
  | some q =>
    simp only [hr] at h ⊢
    cases hn : fs.nodes q with
    | none => simp [hn] at h
    | some m => rfl

/-- What `copy_file` can do to the state: nothing, or write a file (possibly
empty) at the path the destination resolves to. -/
theorem FS.copy_file_frame (fs : FS) (src dst : Path) :
    (fs.copy_file src dst).2 = fs
      ∨ ∃ qd c, fs.resolve maxLinks dst = some qd ∧ fs.nodes qd ≠ some Node.dir
          ∧ (fs.copy_file src dst).2 = fs.set qd (Node.file c) := by
  unfold FS.copy_file
  cases hs : fs.resolve maxLinks src with
  | none => left; rfl
  | some qs =>
    simp only
    by_cases hn : (fs.nodes qs).isNone = true
    · left; simp [hn]
    · simp only [hn, Bool.false_eq_true, if_false]
      cases hr : fs.resolve maxLinks dst with
      | none => left; rfl
      | some qd =>
        simp only
        by_cases hro : (fs.readOnly qd || fs.nodes qd == some Node.dir) = true
        · left; simp [hro]
        · simp only [hro, Bool.false_eq_true, if_false]
          have hnd : fs.nodes qd ≠ some Node.dir := by
            intro hd
            apply hro
            simp [hd]
          right
          cases hq : (fs.set qd (Node.file [])).nodes qs with
          | none => exact ⟨qd, [], rfl, hnd, rfl⟩
          | some m =>
            cases m with
            | file c =>
              simp only
              by_cases hsp : (fs.noSpace qd && !c.isEmpty) = true
              · exact ⟨qd, [], rfl, hnd, by simp [hsp]⟩
              · exact ⟨qd, c, rfl, hnd, by simp [hsp, FS.set_set]⟩
            | dir => exact ⟨qd, [], rfl, hnd, rfl⟩
            | link t => exact ⟨qd, [], rfl, hnd, rfl⟩
            | hardlink t => exact ⟨qd, [], rfl, hnd, rfl⟩

/-- What a successful `copy_file` did. -/
theorem FS.copy_file_ok (fs : FS) (src dst : Path) (h : (fs.copy_file src dst).1 = false) :
    ∃ qs qd c, fs.resolve maxLinks src = some qs ∧ fs.resolve maxLinks dst = some qd
      ∧ fs.readOnly qd = false ∧ fs.nodes qd ≠ some Node.dir
      ∧ (fs.noSpace qd && !c.isEmpty) = false
      ∧ ((qs = qd ∧ c = []) ∨ (qs ≠ qd ∧ fs.nodes qs = some (Node.file c)))
      ∧ (fs.copy_file src dst).2 = fs.set qd (Node.file c) := by
  unfold FS.copy_file at h ⊢
  cases hs : fs.resolve maxLinks src with
  | none => simp [hs] at h
  | some qs =>
    simp only [hs] at h ⊢
    by_cases hn : (fs.nodes qs).isNone = true
    · simp [hn] at h
    · simp only [hn, Bool.false_eq_true, if_false] at h ⊢
      cases hr : fs.resolve maxLinks dst with
      | none => simp [hr] at h
      | some qd =>
        simp only [hr] at h ⊢
        by_cases hro : (fs.readOnly qd || fs.nodes qd == some Node.dir) = true
        · simp [hro] at h
        · simp only [hro, Bool.false_eq_true, if_false] at h ⊢
          have hro1 : fs.readOnly qd = false := by
            cases hv : fs.readOnly qd with
            | false => rfl
            | true => exact absurd (by simp [hv]) hro
          have hnd : fs.nodes qd ≠ some Node.dir := by
            intro hd
            apply hro
            simp [hd]
          cases hq : (fs.set qd (Node.file [])).nodes qs with
          | none => simp [hq] at h
          | some m =>
            cases m with
            | file c =>
              simp only [hq] at h ⊢
              by_cases hsp : (fs.noSpace qd && !c.isEmpty) = true
              · simp [hsp] at h
              · refine ⟨qs, qd, c, rfl, rfl, hro1, hnd, by simpa using hsp, ?_, ?_⟩
                · by_cases hqq : qs = qd
                  · left
                    refine ⟨hqq, ?_⟩
                    rw [FS.set_nodes] at hq
                    simp only [hqq, if_true, Option.some.injEq, Node.file.injEq] at hq
                    exact hq.symm
                  · right
                    refine ⟨hqq, ?_⟩
                    rw [FS.set_nodes] at hq
                    simpa [hqq] using hq
                · simp [hsp, FS.set_set]
            | dir => simp [hq] at h
            | link t => simp [hq] at h
            | hardlink t => simp [hq] at h

theorem FS.remove_inaccessible (fs : FS) (p : Path) :
    (fs.remove p).2.inaccessible = fs.inaccessible := by
  unfold FS.remove
  by_cases hi : fs.inaccessible p = true
  · simp [hi]
  · simp only [hi, Bool.false_eq_true, if_false]
    cases hn : fs.nodes p with
    | none => rfl
    | some m =>
      by_cases hro : fs.readOnly p = true
      · simp [hro]
      · simp [hro, FS.erase]

/-- What a successful `create_link` did. -/
theorem FS.create_link_ok (fs : FS) (hard : Bool) (target from_ : Path)
    (h : (fs.create_link hard target from_).1 = false) :
    (fs.create_link hard target from_).2
        = fs.set from_ (if hard = true then Node.hardlink target else Node.link target)
      ∧ fs.nodes from_ = none ∧ fs.inaccessible from_ = false := by
  unfold FS.create_link at h ⊢
  by_cases h1 : (fs.inaccessible from_ || fs.readOnly from_) = true
  · simp [h1] at h
  · simp only [h1, Bool.false_eq_true, if_false] at h ⊢
    have hi : fs.inaccessible from_ = false := by
      cases hv : fs.inaccessible from_ with
      | false => rfl
      | true => exact absurd (by simp [hv]) h1
    cases hn : fs.nodes from_ with
    | some m => simp [hn] at h
    | none =>
      simp only [hn] at h ⊢
      cases hard with
      | false => exact ⟨by simp, trivial, hi⟩
      | true =>
        by_cases h2 : (fs.readFile target).isNone = true
        · simp [h2] at h
        · exact ⟨by simp [h2], trivial, hi⟩

theorem FS.remove_nodes_ne (fs : FS) (dest p : Path) (hp : p ≠ dest) :
    (fs.remove dest).2.nodes p = fs.nodes p := by
  unfold FS.remove
  by_cases hi : fs.inaccessible dest = true
  · simp [hi]
  · simp only [hi, Bool.false_eq_true, if_false]
    cases hn : fs.nodes dest with
    | none => rfl
    | some m =>
      by_cases hro : fs.readOnly dest = true
      · simp [hro]
      · simp [hro, FS.erase, hp]

/-- The file system after the directory step of `cacheObjectFile`. -/
theorem cacheObjectFile_dirStep_fs (cfg : Config) (w : World) :
    (cacheObjectFile_dirStep cfg w).2.fs
      = if w.fs.exists cfg.ir2objCacheDir = true then w.fs
        else (w.fs.create_directory cfg.ir2objCacheDir).2 := by
  unfold cacheObjectFile_dirStep
  by_cases he : w.fs.exists cfg.ir2objCacheDir = true
  · simp [World.exists, he]
  · simp [World.exists, he, World.create_directory]

/-- The error flag of the directory step of `cacheObjectFile`. -/
theorem cacheObjectFile_dirStep_flag (cfg : Config) (w : World) :
    (cacheObjectFile_dirStep cfg w).1
      = (!w.fs.exists cfg.ir2objCacheDir && (w.fs.create_directory cfg.ir2objCacheDir).1) := by
  unfold cacheObjectFile_dirStep
  by_cases he : w.fs.exists cfg.ir2objCacheDir = true
  · simp [World.exists, he]
  · simp [World.exists, he, World.create_directory]

theorem cacheObjectFile_dirStep_calls (cfg : Config) (w : World) :
    (cacheObjectFile_dirStep cfg w).2.calls
      = if w.fs.exists cfg.ir2objCacheDir = true then
          w.calls ++ [FsCall.exists cfg.ir2objCacheDir]
        else w.calls ++ [FsCall.exists cfg.ir2objCacheDir,
          FsCall.create_directory cfg.ir2objCacheDir] := by
  unfold cacheObjectFile_dirStep
  by_cases he : w.fs.exists cfg.ir2objCacheDir = true
  · simp [World.exists, he]
  · simp [World.exists, he, World.create_directory]

theorem cacheObjectFile_dirStep_errors (cfg : Config) (w : World) :
    (cacheObjectFile_dirStep cfg w).2.errors = w.errors
      ∧ (cacheObjectFile_dirStep cfg w).2.gaggedErrors = w.gaggedErrors
      ∧ (cacheObjectFile_dirStep cfg w).2.diagnostics = w.diagnostics := by
  unfold cacheObjectFile_dirStep
  by_cases he : w.fs.exists cfg.ir2objCacheDir = true
  · simp [World.exists, he]
  · simp [World.exists, he, World.create_directory]

/-- The directory step changes the file system at most by creating the
directory node where no node was. -/
theorem cacheObjectFile_dirStep_frame (cfg : Config) (w : World) :
    (cacheObjectFile_dirStep cfg w).2.fs = w.fs
      ∨ (w.fs.nodes cfg.ir2objCacheDir = none
          ∧ (cacheObjectFile_dirStep cfg w).2.fs = w.fs.set cfg.ir2objCacheDir Node.dir) := by
  rw [cacheObjectFile_dirStep_fs]
  by_cases he : w.fs.exists cfg.ir2objCacheDir = true
  · left; simp [he]
  · simp only [he, Bool.false_eq_true, if_false]
    unfold FS.create_directory
    by_cases hi : w.fs.inaccessible cfg.ir2objCacheDir = true
    · left; simp [hi]
    · simp only [hi, Bool.false_eq_true, if_false]
      cases hn : w.fs.nodes cfg.ir2objCacheDir with
      | some m => left; rfl
      | none =>
        by_cases hro : w.fs.readOnly cfg.ir2objCacheDir = true
        · left; simp [hro]
        · right; simp [hro]

theorem cacheObjectFile_dirStep_readFile (cfg : Config) (w : World) (x : Path) :
    (cacheObjectFile_dirStep cfg w).2.fs.readFile x = w.fs.readFile x := by
  rcases cacheObjectFile_dirStep_frame cfg w with h | ⟨hn, h⟩
  · rw [h]
  · rw [h]; exact FS.readFile_set_dir _ _ hn x

theorem cacheObjectFile_dirStep_resolve (cfg : Config) (w : World) (n : Nat) (x : Path) :
    (cacheObjectFile_dirStep cfg w).2.fs.resolve n x = w.fs.resolve n x := by
  rcases cacheObjectFile_dirStep_frame cfg w with h | ⟨hn, h⟩
  · rw [h]
  · rw [h]
    exact FS.resolve_set_nonlink _ _ _ (FS.linkTarget_of_none _ _ hn)
      (FS.linkTarget_set_dir _ _) n x

theorem cacheObjectFile_dirStep_marks (cfg : Config) (w : World) :
    (cacheObjectFile_dirStep cfg w).2.fs.inaccessible = w.fs.inaccessible
      ∧ (cacheObjectFile_dirStep cfg w).2.fs.readOnly = w.fs.readOnly
      ∧ (cacheObjectFile_dirStep cfg w).2.fs.noSpace = w.fs.noSpace := by
  rcases cacheObjectFile_dirStep_frame cfg w with h | ⟨_, h⟩
  · rw [h]; exact ⟨rfl, rfl, rfl⟩
  · rw [h]; exact ⟨rfl, rfl, rfl⟩

theorem cacheObjectFile_dirStep_exists (cfg : Config) (w : World) (x : Path)
    (hx : w.fs.exists x = true) : (cacheObjectFile_dirStep cfg w).2.fs.exists x = true := by
  rcases cacheObjectFile_dirStep_frame cfg w with h | ⟨hn, h⟩
  · rw [h]; exact hx
  · rw [h]
    exact FS.exists_set _ _ _ _ (FS.linkTarget_of_none _ _ hn) (FS.linkTarget_set_dir _ _) hx

/-- When the directory step does not fail and the cache directory path either
exists or names nothing, the directory exists after the step. -/
theorem cacheObjectFile_dirStep_ok (cfg : Config) (w : World)
    (h : (cacheObjectFile_dirStep cfg w).1 = false)
    (hdir : w.fs.exists cfg.ir2objCacheDir = true ∨ w.fs.nodes cfg.ir2objCacheDir = none) :
    (cacheObjectFile_dirStep cfg w).2.fs.exists cfg.ir2objCacheDir = true := by
  by_cases he : w.fs.exists cfg.ir2objCacheDir = true
  · exact cacheObjectFile_dirStep_exists cfg w _ he
  · have hn : w.fs.nodes cfg.ir2objCacheDir = none := by
      rcases hdir with h1 | h1
      · exact absurd h1 he
      · exact h1
    rw [cacheObjectFile_dirStep_flag] at h
    rw [cacheObjectFile_dirStep_fs]
    simp only [he, Bool.false_eq_true, if_false]
    have he2 : w.fs.exists cfg.ir2objCacheDir = false := by simpa using he
    simp only [he2, Bool.not_false, Bool.true_and] at h
    unfold FS.create_directory at h ⊢
    by_cases hi : w.fs.inaccessible cfg.ir2objCacheDir = true
    · simp [hi] at h
    · simp only [hi, Bool.false_eq_true, if_false, hn] at h ⊢
      by_cases hro : w.fs.readOnly cfg.ir2objCacheDir = true
      · simp [hro] at h
      · simp only [hro, Bool.false_eq_true, if_false]
        rw [FS.exists_nonlink _ _ (FS.linkTarget_set_dir _ _)]
        have hin : (w.fs.set cfg.ir2objCacheDir Node.dir).inaccessible cfg.ir2objCacheDir
            = w.fs.inaccessible cfg.ir2objCacheDir := rfl
        rw [hin]
        simp [hi, FS.set_nodes]

/-! ## ## Claims C3, C6, C7 -/

/-- C3: `cacheLookup` returns a non-empty path `p` iff the cache directory path
is non-empty, `exists` holds of the cache directory and of the entry path of the
key, and `p` is that entry path; in every other state it returns the empty
string; it never ends in `fatal()`.  On a hit the returned path is the
destination of the `copy_file` call of `cacheObjectFile` and the target of the
`create_link` call of `recoverObjectFile` for the same key. -/
theorem cacheLookup_hit_iff (cfg : Config) (w : World) (h : Path) :
    (∀ p : Path, ((cacheLookup cfg w h).value? = some p ∧ p ≠ []) ↔
        (cfg.ir2objCacheDir ≠ [] ∧ w.fs.exists cfg.ir2objCacheDir = true
          ∧ w.fs.exists (storeCacheFileName cfg h) = true ∧ p = storeCacheFileName cfg h))
      ∧ (¬ (cfg.ir2objCacheDir ≠ [] ∧ w.fs.exists cfg.ir2objCacheDir = true
            ∧ w.fs.exists (storeCacheFileName cfg h) = true) →
          (cacheLookup cfg w h).value? = some [])
      ∧ (cacheLookup cfg w h).isFatal = false
      ∧ (∀ p : Path, (cacheLookup cfg w h).value? = some p → p ≠ [] →
          ∀ objectFile : Path,
            (cacheObjectFile cfg w objectFile h).world.calls
                = w.calls ++ [FsCall.exists cfg.ir2objCacheDir, FsCall.copy_file objectFile p]
              ∧ (recoverObjectFile cfg w h objectFile).world.calls
                = w.calls ++ [FsCall.remove objectFile, FsCall.create_link p objectFile]) := by
  have hne := storeCacheFileName_ne_nil cfg h
  by_cases hd : cfg.ir2objCacheDir = []
  · have hl : cacheLookup cfg w h = Outcome.returned [] w := by
      simp [cacheLookup, hd]
    rw [hl]
    refine ⟨?_, ?_, rfl, ?_⟩
    · intro p
      simp only [Outcome.value?, Option.some.injEq]
      constructor
      · rintro ⟨h1, h2⟩; exact absurd h1.symm h2
      · rintro ⟨h1, _⟩; exact absurd hd h1
    · intro _; rfl
    · intro p h1 h2
      simp only [Outcome.value?, Option.some.injEq] at h1
      exact absurd h1.symm h2
  · have hde := isEmpty_eq_false_of_ne_nil _ hd
    by_cases he1 : w.fs.exists cfg.ir2objCacheDir = true
    · by_cases he2 : w.fs.exists (storeCacheFileName cfg h) = true
      · have hl : cacheLookup cfg w h = Outcome.returned (storeCacheFileName cfg h)
            { w with calls := w.calls ++ [FsCall.exists cfg.ir2objCacheDir]
                        ++ [FsCall.exists (storeCacheFileName cfg h)] } := by
          simp [cacheLookup, hde, World.exists, he1, he2]
        rw [hl]
        refine ⟨?_, ?_, rfl, ?_⟩
        · intro p
          simp only [Outcome.value?, Option.some.injEq]
          constructor
          · rintro ⟨h1, _⟩; exact ⟨hd, he1, he2, h1.symm⟩
          · rintro ⟨_, _, _, h4⟩; exact ⟨h4.symm, h4 ▸ hne⟩
        · intro hc; exact absurd ⟨hd, he1, he2⟩ hc
        · intro p h1 _ objectFile
          simp only [Outcome.value?, Option.some.injEq] at h1
          subst h1
          constructor
          · unfold cacheObjectFile cacheObjectFile_dirStep
            simp only [hde, World.exists, he1, World.copy_file]
            simp only [Bool.false_eq_true, if_false, Bool.not_true]
            split <;> simp [Outcome.world]
          · unfold recoverObjectFile
            simp only [World.remove, World.create_link]
            split <;> simp [Outcome.world]
      · have hl : cacheLookup cfg w h = Outcome.returned []
            { w with calls := w.calls ++ [FsCall.exists cfg.ir2objCacheDir]
                        ++ [FsCall.exists (storeCacheFileName cfg h)] } := by
          simp [cacheLookup, hde, World.exists, he1, he2]
        rw [hl]
        refine ⟨?_, ?_, rfl, ?_⟩
        · intro p
          simp only [Outcome.value?, Option.some.injEq]
          constructor
          · rintro ⟨h1, h2⟩; exact absurd h1.symm h2
          · rintro ⟨_, _, h3, _⟩; exact absurd h3 he2
        · intro _; rfl
        · intro p h1 h2
          simp only [Outcome.value?, Option.some.injEq] at h1
          exact absurd h1.symm h2
    · have hl : cacheLookup cfg w h = Outcome.returned []
          { w with calls := w.calls ++ [FsCall.exists cfg.ir2objCacheDir] } := by
        simp [cacheLookup, hde, World.exists, he1]
      rw [hl]
      refine ⟨?_, ?_, rfl, ?_⟩
      · intro p
        simp only [Outcome.value?, Option.some.injEq]
        constructor
        · rintro ⟨h1, h2⟩; exact absurd h1.symm h2
        · rintro ⟨_, h3, _, _⟩; exact absurd h3 he1
      · intro _; rfl
      · intro p h1 h2
        simp only [Outcome.value?, Option.some.injEq] at h1
        exact absurd h1.symm h2

/-- C6 (the code at the failing input): with the cache directory path empty,
`recoverObjectFile` for key `k` and destination `out.o` (a regular file with
content `[1, 2]`) calls `remove` and `create_link`.  On a Unix host it returns
with `out.o` replaced by a link to the relative path `ircache_k.o`; on a Windows
host it ends in `fatal()` with `out.o` removed and one error recorded. -/
theorem recoverObjectFile_disabled_not_noop :
    sampleFS.nodes ['o', 'u', 't', '.', 'o'] = some (Node.file [1, 2])
      ∧ (recoverObjectFile disabledConfig (World.init sampleFS) ['k']
            ['o', 'u', 't', '.', 'o']).isFatal = false
      ∧ (recoverObjectFile disabledConfig (World.init sampleFS) ['k']
            ['o', 'u', 't', '.', 'o']).world.fs.nodes ['o', 'u', 't', '.', 'o']
          = some (Node.link ['i', 'r', 'c', 'a', 'c', 'h', 'e', '_', 'k', '.', 'o'])
      ∧ (recoverObjectFile disabledConfig (World.init sampleFS) ['k']
            ['o', 'u', 't', '.', 'o']).world.calls
          = [FsCall.remove ['o', 'u', 't', '.', 'o'],
             FsCall.create_link ['i', 'r', 'c', 'a', 'c', 'h', 'e', '_', 'k', '.', 'o']
               ['o', 'u', 't', '.', 'o']]
      ∧ (recoverObjectFile { disabledConfig with hostIsWindows := true } (World.init sampleFS)
            ['k'] ['o', 'u', 't', '.', 'o']).isFatal = true
      ∧ (recoverObjectFile { disabledConfig with hostIsWindows := true } (World.init sampleFS)
            ['k'] ['o', 'u', 't', '.', 'o']).world.fs.nodes ['o', 'u', 't', '.', 'o'] = none
      ∧ (recoverObjectFile { disabledConfig with hostIsWindows := true } (World.init sampleFS)
            ['k'] ['o', 'u', 't', '.', 'o']).world.errors = 1 := by
  decide

/-- C7: with the cache directory path empty, `cacheLookup` returns the empty
string and `cacheObjectFile` returns normally, both in the unchanged state: no
file-system call is made, no node is created or written, no error is
recorded. -/
theorem disabled_cache_lookup_insert_noop (cfg : Config) (w : World) (objectFile h : Path)
    (hd : cfg.ir2objCacheDir = []) :
    cacheLookup cfg w h = Outcome.returned [] w
      ∧ cacheObjectFile cfg w objectFile h = Outcome.returned () w := by
  simp [cacheLookup, cacheObjectFile, hd]

/-- C7 (witness): the disabled configuration on a file system holding `out.o`. -/
theorem disabled_cache_lookup_insert_noop_witness :
    disabledConfig.ir2objCacheDir = []
      ∧ cacheLookup disabledConfig (World.init sampleFS) ['k']
          = Outcome.returned [] (World.init sampleFS)
      ∧ cacheObjectFile disabledConfig (World.init sampleFS) ['o', 'u', 't', '.', 'o'] ['k']
          = Outcome.returned () (World.init sampleFS) :=
  ⟨rfl, disabled_cache_lookup_insert_noop disabledConfig (World.init sampleFS)
    ['o', 'u', 't', '.', 'o'] ['k'] rfl⟩

/-! ## ## Helper lemmas: the cache operations -/

theorem cacheLookup_fs (cfg : Config) (w : World) (h : Path) :
    (cacheLookup cfg w h).world.fs = w.fs := by
  unfold cacheLookup
  simp only [World.exists]
  split
  · rfl
  · split
    · rfl
    · split <;> rfl

theorem cacheObjectFile_unfold (cfg : Config) (w : World) (objectFile h : Path)
    (hd : cfg.ir2objCacheDir ≠ []) :
    cacheObjectFile cfg w objectFile h =
      if (cacheObjectFile_dirStep cfg w).1 = true then
        Outcome.fatal (error (cacheObjectFile_dirStep cfg w).2
          (Diagnostic.unableToCreateCacheDirectory cfg.ir2objCacheDir))
      else if (((cacheObjectFile_dirStep cfg w).2).copy_file objectFile
          (storeCacheFileName cfg h)).1 = true then
        Outcome.fatal (error (((cacheObjectFile_dirStep cfg w).2).copy_file objectFile
            (storeCacheFileName cfg h)).2
          (Diagnostic.failedToCopyObjectFile objectFile (storeCacheFileName cfg h)))
      else Outcome.returned () (((cacheObjectFile_dirStep cfg w).2).copy_file objectFile
            (storeCacheFileName cfg h)).2 := by
  have hde := isEmpty_eq_false_of_ne_nil _ hd
  unfold cacheObjectFile
  simp only [hde, Bool.false_eq_true, if_false]

/-- The calls made by `cacheLookup` are `exists` queries only. -/
theorem cacheLookup_calls (cfg : Config) (w : World) (h : Path) :
    ∃ new : List FsCall, (cacheLookup cfg w h).world.calls = w.calls ++ new
      ∧ ∀ c ∈ new, ∃ p, c = FsCall.exists p := by
  unfold cacheLookup
  simp only [World.exists]
  split
  · exact ⟨[], by simp [Outcome.world], by simp⟩
  · split
    · exact ⟨[FsCall.exists cfg.ir2objCacheDir], by simp [Outcome.world], by simp⟩
    · split
      · exact ⟨[FsCall.exists cfg.ir2objCacheDir,
          FsCall.exists (storeCacheFileName cfg h)], by simp [Outcome.world], by simp⟩
      · exact ⟨[FsCall.exists cfg.ir2objCacheDir,
          FsCall.exists (storeCacheFileName cfg h)], by simp [Outcome.world], by simp⟩

theorem cacheLookup_errors (cfg : Config) (w : World) (h : Path) :
    (cacheLookup cfg w h).isFatal = false
      ∧ (cacheLookup cfg w h).world.errors = w.errors
      ∧ (cacheLookup cfg w h).world.gaggedErrors = w.gaggedErrors
      ∧ (cacheLookup cfg w h).world.diagnostics = w.diagnostics := by
  unfold cacheLookup
  simp only [World.exists]
  split
  · exact ⟨rfl, rfl, rfl, rfl⟩
  · split
    · exact ⟨rfl, rfl, rfl, rfl⟩
    · split <;> exact ⟨rfl, rfl, rfl, rfl⟩

theorem cacheLookup_miss_of_not_exists (cfg : Config) (w : World) (h : Path)
    (hm : w.fs.exists cfg.ir2objCacheDir = false
      ∨ w.fs.exists (storeCacheFileName cfg h) = false) :
    (cacheLookup cfg w h).value? = some [] := by
  unfold cacheLookup
  simp only [World.exists]
  split
  · rfl
  · split
    · rfl
    · split
      · rename_i h1 h2
        rcases hm with hm | hm
        · simp [hm] at h1
        · simp [hm] at h2
      · rfl

/-! ## ## Claims C4, C5 -/

/-- A successful insert, seen from the state before it. -/
theorem cacheObjectFile_returned (cfg : Config) (w w2 : World) (objectFile h : Path)
    (hd : cfg.ir2objCacheDir ≠ [])
    (hret : cacheObjectFile cfg w objectFile h = Outcome.returned () w2) :
    ∃ qs qd c, w.fs.resolve maxLinks objectFile = some qs
      ∧ (cacheObjectFile_dirStep cfg w).2.fs.resolve maxLinks (storeCacheFileName cfg h) = some qd
      ∧ w.fs.readOnly qd = false
      ∧ (w.fs.noSpace qd && !c.isEmpty) = false
      ∧ ((qs = qd ∧ c = [])
          ∨ (qs ≠ qd ∧ (cacheObjectFile_dirStep cfg w).2.fs.nodes qs = some (Node.file c)))
      ∧ (cacheObjectFile_dirStep cfg w).1 = false
      ∧ w2.fs = (cacheObjectFile_dirStep cfg w).2.fs.set qd (Node.file c) := by
  rw [cacheObjectFile_unfold cfg w objectFile h hd] at hret
  by_cases h1 : (cacheObjectFile_dirStep cfg w).1 = true
  · simp [h1] at hret
  · simp only [h1, Bool.false_eq_true, if_false] at hret
    by_cases h3 : (((cacheObjectFile_dirStep cfg w).2).copy_file objectFile
        (storeCacheFileName cfg h)).1 = true
    · simp [h3] at hret
    · simp only [h3, Bool.false_eq_true, if_false, Outcome.returned.injEq, true_and] at hret
      have h3f : ((cacheObjectFile_dirStep cfg w).2.fs.copy_file objectFile
          (storeCacheFileName cfg h)).1 = false := by simpa [World.copy_file] using h3
      obtain ⟨qs, qd, c, hs, hr, hro, _, hsp, hcase, hfs⟩ := FS.copy_file_ok _ _ _ h3f
      obtain ⟨_, m2, m3⟩ := cacheObjectFile_dirStep_marks cfg w
      refine ⟨qs, qd, c, ?_, hr, ?_, ?_, hcase, Bool.eq_false_iff.mpr h1, ?_⟩
      · rw [← cacheObjectFile_dirStep_resolve cfg w]; exact hs
      · rw [← m2]; exact hro
      · rw [← m3]; exact hsp
      · rw [← hret, ← hfs]; rfl

/-- C5 (counterexample): (1) the entry for key `k` exists with content `[9]`;
after `cacheObjectFile("out.o", "k")`, where `out.o` has content `[1, 2]`, the
call has returned and the entry has content `[1, 2]`.  (2) When `out.o` is a link
to the entry, so that its content is the `[9]` of the entry, the call returns
and the entry is empty.  (3) When the source is a directory (here `cache`), the
copy fails after the entry has been opened: the call ends in `fatal()` and the
entry is empty. -/
theorem cacheObjectFile_overwrites_entry :
    ((World.init cachedFS).fs.readFile (storeCacheFileName sampleConfig ['k']) = some [9]
      ∧ (World.init cachedFS).fs.readFile outPath = some [1, 2]
      ∧ (cacheObjectFile sampleConfig (World.init cachedFS) outPath ['k']).isFatal = false
      ∧ (cacheObjectFile sampleConfig (World.init cachedFS) outPath ['k']).world.fs.readFile
          (storeCacheFileName sampleConfig ['k']) = some [1, 2])
      ∧ ((World.init linkedOutFS).fs.readFile (storeCacheFileName sampleConfig ['k']) = some [9]
        ∧ (World.init linkedOutFS).fs.readFile outPath = some [9]
        ∧ (cacheObjectFile sampleConfig (World.init linkedOutFS) outPath ['k']).isFatal = false
        ∧ (cacheObjectFile sampleConfig (World.init linkedOutFS) outPath ['k']).world.fs.readFile
            (storeCacheFileName sampleConfig ['k']) = some [])
      ∧ ((World.init cachedFS).fs.nodes ['c', 'a', 'c', 'h', 'e'] = some Node.dir
        ∧ (cacheObjectFile sampleConfig (World.init cachedFS) ['c', 'a', 'c', 'h', 'e']
            ['k']).isFatal = true
        ∧ (cacheObjectFile sampleConfig (World.init cachedFS) ['c', 'a', 'c', 'h', 'e']
            ['k']).world.fs.readFile (storeCacheFileName sampleConfig ['k']) = some []) := by
  decide

/-- C5 (amended): in a state where the entry for key `k` exists with content
`c` (cache directory path non-empty), and for a source `A` that does not
resolve to the file the entry path resolves to: an insert `cacheObjectFile(A, k)`
that returns leaves the entry existing with the content `A` had before the
call, whatever it is, so the entry still has content `c` when the content of
`A` is `c`; and `cacheLookup` changes no node of the file system. -/
theorem cacheObjectFile_existing_entry (cfg : Config) (w : World) (objectFile k : Path)
    (c : Bytes) (hd : cfg.ir2objCacheDir ≠ [])
    (hentry : w.fs.readFile (storeCacheFileName cfg k) = some c)
    (hsrc : w.fs.resolve maxLinks objectFile
      ≠ w.fs.resolve maxLinks (storeCacheFileName cfg k)) :
    ((cacheObjectFile cfg w objectFile k).isFatal = false →
        (cacheObjectFile cfg w objectFile k).world.fs.readFile (storeCacheFileName cfg k)
            = w.fs.readFile objectFile
          ∧ (cacheObjectFile cfg w objectFile k).world.fs.exists (storeCacheFileName cfg k)
            = true)
      ∧ ((cacheObjectFile cfg w objectFile k).isFatal = false →
          w.fs.readFile objectFile = some c →
          (cacheObjectFile cfg w objectFile k).world.fs.readFile (storeCacheFileName cfg k)
            = some c)
      ∧ (cacheLookup cfg w k).world.fs = w.fs
      ∧ w.fs.exists (storeCacheFileName cfg k) = true := by
  have hfirst : (cacheObjectFile cfg w objectFile k).isFatal = false →
      (cacheObjectFile cfg w objectFile k).world.fs.readFile (storeCacheFileName cfg k)
            = w.fs.readFile objectFile
          ∧ (cacheObjectFile cfg w objectFile k).world.fs.exists (storeCacheFileName cfg k)
            = true := by
    intro hok
    have hret := Outcome.returned_of_not_fatal _ hok
    generalize (cacheObjectFile cfg w objectFile k).world = w2 at hret ⊢
    obtain ⟨qs, qd, c2, hs, hr, _, _, hcase, _, hfs⟩ :=
      cacheObjectFile_returned cfg w w2 objectFile k hd hret
    have hne : qs ≠ qd := by
      intro heq
      apply hsrc
      rw [hs, ← cacheObjectFile_dirStep_resolve cfg w, hr, heq]
    have hsn : (cacheObjectFile_dirStep cfg w).2.fs.nodes qs = some (Node.file c2) := by
      rcases hcase with ⟨h1, _⟩ | ⟨_, h2⟩
      · exact absurd h1 hne
      · exact h2
    have hA : w.fs.readFile objectFile = some c2 := by
      rw [← cacheObjectFile_dirStep_readFile cfg w]
      unfold FS.readFile
      rw [cacheObjectFile_dirStep_resolve cfg w, hs]
      simp [hsn]
    obtain ⟨hrf, hee, _⟩ := FS.readFile_set_file _ _ _ c2 hr
    rw [hfs, hA]
    exact ⟨hrf, hee⟩
  refine ⟨hfirst, ?_, cacheLookup_fs cfg w k, FS.exists_of_readFile _ _ _ hentry⟩
  intro hok hA
  rw [(hfirst hok).1, hA]

/-- C5 (witness): the cache holding an entry `[9]` for key `k`, and an insert
from `out.o`. -/
theorem cacheObjectFile_existing_entry_witness :
    sampleConfig.ir2objCacheDir ≠ []
      ∧ (World.init cachedFS).fs.readFile (storeCacheFileName sampleConfig ['k']) = some [9]
      ∧ (World.init cachedFS).fs.resolve maxLinks outPath
          ≠ (World.init cachedFS).fs.resolve maxLinks (storeCacheFileName sampleConfig ['k'])
      ∧ (cacheObjectFile sampleConfig (World.init cachedFS) outPath ['k']).world.fs.readFile
          (storeCacheFileName sampleConfig ['k']) = (World.init cachedFS).fs.readFile outPath :=
  ⟨by decide, by decide, by decide,
    ((cacheObjectFile_existing_entry sampleConfig (World.init cachedFS) outPath ['k'] [9]
      (by decide) (by decide) (by decide)).1 (by decide)).1⟩

/-! ## ## Claim C9 -/

theorem FS.create_link_inaccessible (fs : FS) (hard : Bool) (target from_ : Path) :
    (fs.create_link hard target from_).2.inaccessible = fs.inaccessible := by
  unfold FS.create_link
  by_cases h1 : (fs.inaccessible from_ || fs.readOnly from_) = true
  · simp [h1]
  · simp only [h1, Bool.false_eq_true, if_false]
    cases hn : fs.nodes from_ with
    | some m => rfl
    | none =>
      cases hard with
      | false => rfl
      | true =>
        by_cases h2 : (fs.readFile target).isNone = true
        · simp [h2]
        · simp [h2, FS.set]

/-- Two states that agree on nodes and marks away from `dest` give the same
existence and content to a path whose resolution does not visit `dest`. -/
theorem FS.path_congr (fs fs2 : FS) (dest e : Path)
    (hn : ∀ p, p ≠ dest → fs2.nodes p = fs.nodes p)
    (hi : fs2.inaccessible = fs.inaccessible)
    (hv : dest ∉ fs.visited maxLinks e) :
    fs2.readFile e = fs.readFile e ∧ fs2.exists e = fs.exists e := by
  unfold FS.readFile FS.exists
  rw [FS.resolve_congr fs fs2 dest hn hi maxLinks e hv]
  cases hr : fs.resolve maxLinks e with
  | none => exact ⟨rfl, rfl⟩
  | some r =>
    have hne : r ≠ dest := by
      intro heq
      apply hv
      rw [← heq]
      exact FS.resolve_mem_visited fs _ _ _ hr
    simp [hn r hne]

theorem symlinkTarget_eq_self (dest e : Path) (h : e.head? = some '/' ∨ dirPart dest = []) :
    symlinkTarget dest e = e := by
  unfold symlinkTarget
  by_cases ha : e.head? = some '/'
  · simp [ha]
  · rcases h with h | h
    · exact absurd h ha
    · simp [ha, h]

/-- C9 (counterexample): three states, Unix host, cache directory `cache`, in
each of which the link creation succeeds and the call returns.  (1) The
destination is the entry path of key `k` itself: the entry (content `[9]`) is
removed and replaced by a link, and has no content afterwards.  (2) The entry
path is a link to `/out.o` (content `[9]`) and the destination is `/out.o`, not
the entry path: the entry node is unchanged but the entry has no content
afterwards.  (3) The destination is `out/U.o` in the existing directory `out`: the link holds the text
`cache/ircache_k.o`, which is read from the directory `out/`, so the destination
does not lead to the entry and has no content, while the entry has `[9]`. -/
theorem recoverObjectFile_entry_as_destination :
    (storeCacheFileName sampleConfig ['k'] = entryPathK
      ∧ (World.init cachedFS).fs.nodes entryPathK = some (Node.file [9])
      ∧ (recoverObjectFile sampleConfig (World.init cachedFS) ['k'] entryPathK).isFatal = false
      ∧ (recoverObjectFile sampleConfig (World.init cachedFS) ['k'] entryPathK).world.fs.nodes
          entryPathK = some (Node.link entryPathK)
      ∧ (recoverObjectFile sampleConfig (World.init cachedFS) ['k'] entryPathK).world.fs.readFile
          entryPathK = none)
      ∧ (absOutPath ≠ entryPathK
        ∧ (World.init entryViaOutFS).fs.readFile entryPathK = some [9]
        ∧ (recoverObjectFile sampleConfig (World.init entryViaOutFS) ['k'] absOutPath).isFatal
            = false
        ∧ (recoverObjectFile sampleConfig (World.init entryViaOutFS) ['k']
              absOutPath).world.fs.nodes entryPathK
            = (World.init entryViaOutFS).fs.nodes entryPathK
        ∧ (recoverObjectFile sampleConfig (World.init entryViaOutFS) ['k']
              absOutPath).world.fs.readFile entryPathK = none)
      ∧ ((recoverObjectFile sampleConfig (World.init subdirFS) ['k'] subdirOutPath).isFatal
            = false
        ∧ (recoverObjectFile sampleConfig (World.init subdirFS) ['k']
              subdirOutPath).world.fs.linkTarget subdirOutPath
            = some (['o', 'u', 't', '/'] ++ entryPathK)
        ∧ (recoverObjectFile sampleConfig (World.init subdirFS) ['k']
              subdirOutPath).world.fs.readFile subdirOutPath = none
        ∧ (recoverObjectFile sampleConfig (World.init subdirFS) ['k']
              subdirOutPath).world.fs.readFile entryPathK = some [9]) := by
  decide

/-- C9 (amended): `recoverObjectFile(k, dest)` calls `remove(dest)` and then
`create_link(entry path of k, dest)`; it ends in `fatal()`, with one error
recorded, iff the link creation fails.  When the link creation succeeds, `dest`
is afterwards a link holding the entry path of `k` (whatever was at `dest` is
gone) and the node at every other path is unchanged.  The cache entry keeps its
existence and content when the resolution of the entry path does not visit
`dest`.  The link at `dest` leads to the entry path on a Windows host, when the
entry path is absolute, or when `dest` has no directory part; then, for an entry
that is a regular file other than `dest`, reading `dest` yields the content of
the entry. -/
theorem recoverObjectFile_effect (cfg : Config) (w : World) (k dest : Path) :
    ((recoverObjectFile cfg w k dest).isFatal = true ↔
        ((w.fs.remove dest).2.create_link cfg.hostIsWindows (storeCacheFileName cfg k) dest).1
          = true)
      ∧ ((recoverObjectFile cfg w k dest).isFatal = true →
          (recoverObjectFile cfg w k dest).world.errors
              + (recoverObjectFile cfg w k dest).world.gaggedErrors
            = w.errors + w.gaggedErrors + 1)
      ∧ (recoverObjectFile cfg w k dest).world.calls
          = w.calls ++ [FsCall.remove dest, FsCall.create_link (storeCacheFileName cfg k) dest]
      ∧ ((recoverObjectFile cfg w k dest).isFatal = false →
          (recoverObjectFile cfg w k dest).world.fs.nodes dest
              = some (if cfg.hostIsWindows = true then Node.hardlink (storeCacheFileName cfg k)
                  else Node.link (storeCacheFileName cfg k))
            ∧ (∀ p : Path, p ≠ dest →
                (recoverObjectFile cfg w k dest).world.fs.nodes p = w.fs.nodes p)
            ∧ (dest ∉ w.fs.visited maxLinks (storeCacheFileName cfg k) →
                (recoverObjectFile cfg w k dest).world.fs.readFile (storeCacheFileName cfg k)
                    = w.fs.readFile (storeCacheFileName cfg k)
                  ∧ (recoverObjectFile cfg w k dest).world.fs.exists (storeCacheFileName cfg k)
                    = w.fs.exists (storeCacheFileName cfg k))
            ∧ ((cfg.hostIsWindows = true ∨ (storeCacheFileName cfg k).head? = some '/'
                  ∨ dirPart dest = []) →
                (recoverObjectFile cfg w k dest).world.fs.linkTarget dest
                    = some (storeCacheFileName cfg k)
                  ∧ ∀ c : Bytes, w.fs.nodes (storeCacheFileName cfg k) = some (Node.file c) →
                      w.fs.inaccessible (storeCacheFileName cfg k) = false →
                      dest ≠ storeCacheFileName cfg k →
                      (recoverObjectFile cfg w k dest).world.fs.readFile dest = some c)
            ∧ (recoverObjectFile cfg w k dest).world.errors = w.errors
            ∧ (recoverObjectFile cfg w k dest).world.gaggedErrors = w.gaggedErrors) := by
  unfold recoverObjectFile
  simp only [World.remove, World.create_link]
  by_cases hl : ((w.fs.remove dest).2.create_link cfg.hostIsWindows
      (storeCacheFileName cfg k) dest).1 = true
  · simp only [hl, if_true, Outcome.isFatal, Outcome.world, error_calls, true_iff,
      Bool.true_eq_false, false_implies, true_implies, true_and, and_true]
    refine ⟨?_, ?_⟩
    · rw [error_count]
    · simp
  · have hl2 : ((w.fs.remove dest).2.create_link cfg.hostIsWindows
        (storeCacheFileName cfg k) dest).1 = false := by simpa using hl
    obtain ⟨hset, _, hacc⟩ := FS.create_link_ok _ _ _ _ hl2
    have hinacc : ((w.fs.remove dest).2.create_link cfg.hostIsWindows
        (storeCacheFileName cfg k) dest).2.inaccessible = w.fs.inaccessible := by
      rw [FS.create_link_inaccessible, FS.remove_inaccessible]
    have hacc2 : w.fs.inaccessible dest = false := by
      rw [← FS.remove_inaccessible w.fs dest]; exact hacc
    have hframe : ∀ p : Path, p ≠ dest →
        ((w.fs.remove dest).2.create_link cfg.hostIsWindows
          (storeCacheFileName cfg k) dest).2.nodes p = w.fs.nodes p := by
      intro p hp
      rw [hset, FS.set_nodes]
      simp only [hp, if_false]
      exact FS.remove_nodes_ne _ _ _ hp
    have hnode : ((w.fs.remove dest).2.create_link cfg.hostIsWindows
        (storeCacheFileName cfg k) dest).2.nodes dest
        = some (if cfg.hostIsWindows = true then Node.hardlink (storeCacheFileName cfg k)
            else Node.link (storeCacheFileName cfg k)) := by
      rw [hset]; simp [FS.set_nodes]
    simp only [hl2, Bool.false_eq_true, if_false, Outcome.isFatal, Outcome.world,
      false_implies, true_implies, true_and]
    refine ⟨by simp, hnode, hframe, ?_, ?_, trivial⟩
    · intro hv
      exact FS.path_congr w.fs _ dest _ hframe hinacc hv
    · intro hlead
      have hlt : ((w.fs.remove dest).2.create_link cfg.hostIsWindows
          (storeCacheFileName cfg k) dest).2.linkTarget dest
          = some (storeCacheFileName cfg k) := by
        unfold FS.linkTarget
        rw [hnode]
        cases hw : cfg.hostIsWindows with
        | true => simp
        | false =>
          have h2 : (storeCacheFileName cfg k).head? = some '/' ∨ dirPart dest = [] := by
            rcases hlead with h | h | h
            · rw [hw] at h; exact absurd h (by simp)
            · exact Or.inl h
            · exact Or.inr h
          simp [symlinkTarget_eq_self dest _ h2]
      refine ⟨hlt, ?_⟩
      intro c hc hia hne
      have hne2 : storeCacheFileName cfg k ≠ dest := fun h => hne h.symm
      have hen : ((w.fs.remove dest).2.create_link cfg.hostIsWindows
          (storeCacheFileName cfg k) dest).2.nodes (storeCacheFileName cfg k)
          = some (Node.file c) := by
        rw [hframe _ hne2]; exact hc
      have hres : ((w.fs.remove dest).2.create_link cfg.hostIsWindows
          (storeCacheFileName cfg k) dest).2.resolve maxLinks dest
          = some (storeCacheFileName cfg k) := by
        show FS.resolve _ (39 + 1) dest = _
        unfold FS.resolve
        rw [hinacc, hacc2, hlt]
        simp only [Bool.false_eq_true, if_false]
        rw [FS.resolve_nonlink _ 38 _ (FS.linkTarget_of_file _ _ c hen), hinacc, hia]
        simp
      unfold FS.readFile
      rw [hres]
      simp [hen]

/-- C9 (witness): the cache holding the entry `[9]` of key `k`, destination
`out.o`, Unix host. -/
theorem recoverObjectFile_effect_witness :
    (recoverObjectFile sampleConfig (World.init cachedFS) ['k'] outPath).isFatal = false
      ∧ outPath ∉ (World.init cachedFS).fs.visited maxLinks (storeCacheFileName sampleConfig ['k'])
      ∧ dirPart outPath = []
      ∧ (recoverObjectFile sampleConfig (World.init cachedFS) ['k'] outPath).world.fs.readFile
            (storeCacheFileName sampleConfig ['k'])
          = (World.init cachedFS).fs.readFile (storeCacheFileName sampleConfig ['k'])
      ∧ (recoverObjectFile sampleConfig (World.init cachedFS) ['k'] outPath).world.fs.linkTarget
            outPath = some (storeCacheFileName sampleConfig ['k'])
      ∧ (recoverObjectFile sampleConfig (World.init cachedFS) ['k'] outPath).world.fs.readFile
            outPath = some [9] :=
  ⟨by decide, by decide, by decide,
    (((recoverObjectFile_effect sampleConfig (World.init cachedFS) ['k'] outPath).2.2.2
      (by decide)).2.2.1 (by decide)).1,
    (((recoverObjectFile_effect sampleConfig (World.init cachedFS) ['k'] outPath).2.2.2
      (by decide)).2.2.2.1 (Or.inr (Or.inr (by decide)))).1,
    (((recoverObjectFile_effect sampleConfig (World.init cachedFS) ['k'] outPath).2.2.2
      (by decide)).2.2.2.1 (Or.inr (Or.inr (by decide)))).2 [9] (by decide) (by decide)
        (by decide)⟩

/-! ## ## Claims C8, C11, C15 -/

/-- C8: with a non-empty cache directory path, `cacheObjectFile(A, k)` ends in
`fatal()` iff the directory does not exist and `create_directory` fails, or
else `copy_file` of `A` to the entry path fails (in the state after the
directory step); a fatal end records exactly one error, a normal return records
none; and when the directory creation fails the calls made are `exists` and
`create_directory` only, no `copy_file`. -/
theorem cacheObjectFile_fatal_iff (cfg : Config) (w : World) (objectFile k : Path)
    (hd : cfg.ir2objCacheDir ≠ []) :
    ((cacheObjectFile cfg w objectFile k).isFatal = true ↔
        ((w.fs.exists cfg.ir2objCacheDir = false
            ∧ (w.fs.create_directory cfg.ir2objCacheDir).1 = true)
          ∨ (¬ (w.fs.exists cfg.ir2objCacheDir = false
                ∧ (w.fs.create_directory cfg.ir2objCacheDir).1 = true)
              ∧ ((if w.fs.exists cfg.ir2objCacheDir = true then w.fs
                    else (w.fs.create_directory cfg.ir2objCacheDir).2).copy_file objectFile
                  (storeCacheFileName cfg k)).1 = true)))
      ∧ ((cacheObjectFile cfg w objectFile k).isFatal = true →
          (cacheObjectFile cfg w objectFile k).world.errors
              + (cacheObjectFile cfg w objectFile k).world.gaggedErrors
            = w.errors + w.gaggedErrors + 1)
      ∧ ((cacheObjectFile cfg w objectFile k).isFatal = false →
          (cacheObjectFile cfg w objectFile k).world.errors = w.errors
            ∧ (cacheObjectFile cfg w objectFile k).world.gaggedErrors = w.gaggedErrors
            ∧ (cacheObjectFile cfg w objectFile k).world.diagnostics = w.diagnostics)
      ∧ ((w.fs.exists cfg.ir2objCacheDir = false
            ∧ (w.fs.create_directory cfg.ir2objCacheDir).1 = true) →
          (cacheObjectFile cfg w objectFile k).world.calls
              = w.calls ++ [FsCall.exists cfg.ir2objCacheDir,
                  FsCall.create_directory cfg.ir2objCacheDir]
            ∧ (cacheObjectFile cfg w objectFile k).world.fs = w.fs)
      ∧ (¬ (w.fs.exists cfg.ir2objCacheDir = false
            ∧ (w.fs.create_directory cfg.ir2objCacheDir).1 = true) →
          FsCall.copy_file objectFile (storeCacheFileName cfg k)
            ∈ (cacheObjectFile cfg w objectFile k).world.calls) := by
  obtain ⟨e1, e2, e3⟩ := cacheObjectFile_dirStep_errors cfg w
  have hflag := cacheObjectFile_dirStep_flag cfg w
  have hfs := cacheObjectFile_dirStep_fs cfg w
  have hcalls := cacheObjectFile_dirStep_calls cfg w
  rw [cacheObjectFile_unfold cfg w objectFile k hd]
  by_cases hc : (w.fs.exists cfg.ir2objCacheDir = false
      ∧ (w.fs.create_directory cfg.ir2objCacheDir).1 = true)
  · have h1 : (cacheObjectFile_dirStep cfg w).1 = true := by
      rw [hflag]; simp [hc.1, hc.2]
    have hfs1 : (cacheObjectFile_dirStep cfg w).2.fs = w.fs := by
      rw [hfs]; simp only [hc.1, Bool.false_eq_true, if_false]
      unfold FS.create_directory
      have h2 := hc.2
      unfold FS.create_directory at h2
      by_cases hi : w.fs.inaccessible cfg.ir2objCacheDir = true
      · simp [hi]
      · simp only [hi, Bool.false_eq_true, if_false] at h2 ⊢
        cases hn : w.fs.nodes cfg.ir2objCacheDir with
        | some m => rfl
        | none =>
          simp only [hn] at h2 ⊢
          by_cases hro : w.fs.readOnly cfg.ir2objCacheDir = true
          · simp [hro]
          · simp [hro] at h2
    simp only [h1, if_true, Outcome.isFatal, Outcome.world, error_calls, error_fs, true_iff,
      Bool.true_eq_false, false_implies, true_implies, true_and]
    refine ⟨Or.inl hc, ?_, ?_, ?_⟩
    · rw [error_count, e1, e2]
    · intro _
      refine ⟨?_, hfs1⟩
      rw [hcalls]; simp [hc.1]
    · intro hn; exact absurd hc hn
  · have h1 : (cacheObjectFile_dirStep cfg w).1 = false := by
      rw [hflag]
      by_cases he : w.fs.exists cfg.ir2objCacheDir = true
      · simp [he]
      · have he2 : w.fs.exists cfg.ir2objCacheDir = false := by simpa using he
        have : (w.fs.create_directory cfg.ir2objCacheDir).1 = false := by
          cases hcr : (w.fs.create_directory cfg.ir2objCacheDir).1 with
          | false => rfl
          | true => exact absurd ⟨he2, hcr⟩ hc
        simp [he2, this]
    simp only [h1, Bool.false_eq_true, if_false]
    have hcopy : (((cacheObjectFile_dirStep cfg w).2).copy_file objectFile
        (storeCacheFileName cfg k)).1
        = ((if w.fs.exists cfg.ir2objCacheDir = true then w.fs
            else (w.fs.create_directory cfg.ir2objCacheDir).2).copy_file objectFile
              (storeCacheFileName cfg k)).1 := by
      simp only [World.copy_file, hfs]
    rw [← hcopy]
    by_cases h3 : (((cacheObjectFile_dirStep cfg w).2).copy_file objectFile
        (storeCacheFileName cfg k)).1 = true
    · simp only [h3, if_true, Outcome.isFatal, Outcome.world, error_calls, true_iff,
        Bool.true_eq_false, false_implies, true_implies, true_and]
      refine ⟨Or.inr ⟨hc, trivial⟩, ?_, ?_, ?_⟩
      · rw [error_count]; simp only [World.copy_file]; rw [e1, e2]
      · intro h; exact absurd h hc
      · intro _; simp [World.copy_file]
    · simp only [h3, Bool.false_eq_true, if_false, Outcome.isFatal, Outcome.world,
        false_implies, true_implies, true_and, and_false, or_false, false_iff]
      refine ⟨hc, ?_, ?_, ?_⟩
      · simp only [World.copy_file]; exact ⟨e1, e2, e3⟩
      · intro h; exact absurd h hc
      · intro _; simp [World.copy_file]

/-- C8 (witness): an insert into the sample configuration. -/
theorem cacheObjectFile_fatal_iff_witness :
    sampleConfig.ir2objCacheDir ≠ []
      ∧ ((cacheObjectFile sampleConfig (World.init sampleFS) ['x'] ['k']).isFatal = true →
          (cacheObjectFile sampleConfig (World.init sampleFS) ['x'] ['k']).world.errors
              + (cacheObjectFile sampleConfig (World.init sampleFS) ['x'] ['k']).world.gaggedErrors
            = (World.init sampleFS).errors + (World.init sampleFS).gaggedErrors + 1) :=
  ⟨by decide,
    (cacheObjectFile_fatal_iff sampleConfig (World.init sampleFS) ['x'] ['k'] (by decide)).2.1⟩

/-- C11: `cacheLookup` is read-only and never fatal: in every state and for
every key it returns a value, records no error and prints no diagnostic, leaves
the file system exactly as it was, and calls nothing but `exists` (so it never
creates the cache directory); when an existence check fails because the cache
directory or the entry path is inaccessible (permission denied, path too long),
the result is the empty string, a miss. -/
theorem cacheLookup_read_only (cfg : Config) (w : World) (h : Path) :
    (cacheLookup cfg w h).isFatal = false
      ∧ (∃ p, (cacheLookup cfg w h).value? = some p)
      ∧ (cacheLookup cfg w h).world.fs = w.fs
      ∧ (cacheLookup cfg w h).world.errors = w.errors
      ∧ (cacheLookup cfg w h).world.gaggedErrors = w.gaggedErrors
      ∧ (cacheLookup cfg w h).world.diagnostics = w.diagnostics
      ∧ (∃ new : List FsCall, (cacheLookup cfg w h).world.calls = w.calls ++ new
          ∧ (∀ c ∈ new, ∃ p, c = FsCall.exists p)
          ∧ FsCall.create_directory cfg.ir2objCacheDir ∉ new)
      ∧ (w.fs.inaccessible cfg.ir2objCacheDir = true
            ∨ w.fs.inaccessible (storeCacheFileName cfg h) = true →
          (cacheLookup cfg w h).value? = some []) := by
  obtain ⟨h1, h2, h3, h4⟩ := cacheLookup_errors cfg w h
  obtain ⟨new, hn1, hn2⟩ := cacheLookup_calls cfg w h
  refine ⟨h1, ?_, cacheLookup_fs cfg w h, h2, h3, h4, ⟨new, hn1, hn2, ?_⟩, ?_⟩
  · cases ho : cacheLookup cfg w h with
    | returned a w2 => exact ⟨a, rfl⟩
    | fatal w2 => rw [ho] at h1; simp [Outcome.isFatal] at h1
  · intro hc
    obtain ⟨p, hp⟩ := hn2 _ hc
    cases hp
  · intro hi
    apply cacheLookup_miss_of_not_exists
    rcases hi with hi | hi
    · left; exact FS.exists_inaccessible _ _ hi
    · right; exact FS.exists_inaccessible _ _ hi

/-- C15: `recoverObjectFile` makes exactly two file-system calls, `remove` of the
destination and `create_link`, in every state: it never queries the existence
of the cache entry, and it goes on to `create_link` whatever `remove` returned.
It is not atomic: on a Windows host, with a regular file `out.o` and no entry
for key `k`, the removal succeeds, the link creation fails, and the call ends in
`fatal()` with one error recorded, `out.o` gone and no link in its place. -/
theorem recoverObjectFile_not_atomic :
    (∀ (cfg : Config) (w : World) (k dest : Path),
        (recoverObjectFile cfg w k dest).world.calls
          = w.calls ++ [FsCall.remove dest,
              FsCall.create_link (storeCacheFileName cfg k) dest])
      ∧ (World.init sampleFS).fs.nodes outPath = some (Node.file [1, 2])
      ∧ (World.init sampleFS).fs.exists (storeCacheFileName windowsConfig ['k']) = false
      ∧ ((World.init sampleFS).fs.remove outPath).1 = false
      ∧ (recoverObjectFile windowsConfig (World.init sampleFS) ['k'] outPath).isFatal = true
      ∧ (recoverObjectFile windowsConfig (World.init sampleFS) ['k'] outPath).world.fs.nodes
          outPath = none
      ∧ (recoverObjectFile windowsConfig (World.init sampleFS) ['k'] outPath).world.errors = 1
      ∧ (recoverObjectFile windowsConfig (World.init sampleFS) ['k']
            outPath).world.diagnostics
          = [Diagnostic.failedToLinkObjectFile (storeCacheFileName windowsConfig ['k'])
              outPath] := by
  refine ⟨?_, by decide, by decide, by decide, by decide, by decide, by decide, by decide⟩
  intro cfg w k dest
  unfold recoverObjectFile
  simp only [World.remove, World.create_link]
  split <;> simp [Outcome.world]

/-! ## ## Claim C14 -/

theorem cacheObjectFile_calls_cases (cfg : Config) (w : World) (objectFile h : Path)
    (hd : cfg.ir2objCacheDir ≠ []) :
    (cacheObjectFile cfg w objectFile h).world.calls = (cacheObjectFile_dirStep cfg w).2.calls
      ∨ (cacheObjectFile cfg w objectFile h).world.calls
          = (cacheObjectFile_dirStep cfg w).2.calls
              ++ [FsCall.copy_file objectFile (storeCacheFileName cfg h)] := by
  rw [cacheObjectFile_unfold cfg w objectFile h hd]
  by_cases h1 : (cacheObjectFile_dirStep cfg w).1 = true
  · left; simp [h1, Outcome.world]
  · right
    simp only [h1, Bool.false_eq_true, if_false]
    split <;> simp [Outcome.world, World.copy_file]

/-- The file system in which `cacheObjectFile` ends: that of the directory
step, or that with a file written where the entry path resolves. -/
theorem cacheObjectFile_fs_cases (cfg : Config) (w : World) (objectFile h : Path)
    (hd : cfg.ir2objCacheDir ≠ []) :
    (cacheObjectFile cfg w objectFile h).world.fs = (cacheObjectFile_dirStep cfg w).2.fs
      ∨ ∃ qd c, (cacheObjectFile_dirStep cfg w).2.fs.resolve maxLinks
              (storeCacheFileName cfg h) = some qd
          ∧ (cacheObjectFile_dirStep cfg w).2.fs.nodes qd ≠ some Node.dir
          ∧ (cacheObjectFile cfg w objectFile h).world.fs
              = (cacheObjectFile_dirStep cfg w).2.fs.set qd (Node.file c) := by
  have hw : (cacheObjectFile cfg w objectFile h).world.fs = (cacheObjectFile_dirStep cfg w).2.fs
      ∨ (cacheObjectFile cfg w objectFile h).world.fs
          = ((cacheObjectFile_dirStep cfg w).2.fs.copy_file objectFile
              (storeCacheFileName cfg h)).2 := by
    rw [cacheObjectFile_unfold cfg w objectFile h hd]
    by_cases h1 : (cacheObjectFile_dirStep cfg w).1 = true
    · left; simp [h1, Outcome.world]
    · right
      simp only [h1, Bool.false_eq_true, if_false]
      split <;> simp [Outcome.world, World.copy_file]
  rcases hw with hw | hw
  · exact Or.inl hw
  · rcases FS.copy_file_frame (cacheObjectFile_dirStep cfg w).2.fs objectFile
      (storeCacheFileName cfg h) with hc | ⟨qd, c, hr, hnd, hc⟩
    · left; rw [hw, hc]
    · right; exact ⟨qd, c, hr, hnd, by rw [hw, hc]⟩

/-- C13 (counterexample): the cache directory path `cache` is a symbolic link
that leads to nothing.  `exists` reports it absent, `create_directory` is called
and reports success (a node is already there), and after the call, which ends in
`fatal()` on the copy from the missing source `x`, the directory still does not
exist: the node at `cache` is the link. -/
theorem cacheObjectFile_dangling_directory_link :
    sampleConfig.ir2objCacheDir ≠ []
      ∧ (World.init danglingDirFS).fs.exists sampleConfig.ir2objCacheDir = false
      ∧ ((World.init danglingDirFS).fs.create_directory sampleConfig.ir2objCacheDir).1 = false
      ∧ (cacheObjectFile sampleConfig (World.init danglingDirFS) ['x'] ['k']).world.calls
          = [FsCall.exists sampleConfig.ir2objCacheDir,
             FsCall.create_directory sampleConfig.ir2objCacheDir,
             FsCall.copy_file ['x'] (storeCacheFileName sampleConfig ['k'])]
      ∧ (cacheObjectFile sampleConfig (World.init danglingDirFS) ['x']
            ['k']).world.fs.exists sampleConfig.ir2objCacheDir = false
      ∧ (cacheObjectFile sampleConfig (World.init danglingDirFS) ['x']
            ['k']).world.fs.nodes sampleConfig.ir2objCacheDir
          = some (Node.link ['n', 'o', 'w', 'h', 'e', 'r', 'e']) := by
  decide

/-- C13 (amended): with a non-empty cache directory path, `cacheObjectFile`
calls `create_directory` on the cache directory iff `exists` reports it absent.
When the directory exists, it exists afterwards and the only diagnostic the call
can add is the copy failure, never "Unable to create cache directory"; when the
path names nothing and the creation succeeds, the directory node exists
afterwards; and `cacheLookup` makes no `create_directory` call and leaves the
file system as it was. -/
theorem cacheObjectFile_creates_directory_iff (cfg : Config) (w : World)
    (objectFile k : Path) (hd : cfg.ir2objCacheDir ≠ []) :
    (∃ new : List FsCall, (cacheObjectFile cfg w objectFile k).world.calls = w.calls ++ new
        ∧ (FsCall.create_directory cfg.ir2objCacheDir ∈ new ↔
            w.fs.exists cfg.ir2objCacheDir = false))
      ∧ (w.fs.exists cfg.ir2objCacheDir = true →
          (cacheObjectFile cfg w objectFile k).world.fs.exists cfg.ir2objCacheDir = true
            ∧ ((cacheObjectFile cfg w objectFile k).world.diagnostics = w.diagnostics
              ∨ (cacheObjectFile cfg w objectFile k).world.diagnostics
                  = w.diagnostics ++ [Diagnostic.failedToCopyObjectFile objectFile
                      (storeCacheFileName cfg k)]))
      ∧ (w.fs.nodes cfg.ir2objCacheDir = none →
          (w.fs.create_directory cfg.ir2objCacheDir).1 = false →
          w.fs.exists cfg.ir2objCacheDir = false
            ∧ (cacheObjectFile cfg w objectFile k).world.fs.exists cfg.ir2objCacheDir = true
            ∧ (cacheObjectFile cfg w objectFile k).world.fs.nodes cfg.ir2objCacheDir
                = some Node.dir)
      ∧ ((cacheLookup cfg w k).world.fs = w.fs
          ∧ ∃ new : List FsCall, (cacheLookup cfg w k).world.calls = w.calls ++ new
              ∧ FsCall.create_directory cfg.ir2objCacheDir ∉ new) := by
  have hflag := cacheObjectFile_dirStep_flag cfg w
  have hcalls := cacheObjectFile_dirStep_calls cfg w
  refine ⟨?_, ?_, ?_, cacheLookup_fs cfg w k, ?_⟩
  · by_cases he : w.fs.exists cfg.ir2objCacheDir = true
    · simp only [he, if_true] at hcalls
      rcases cacheObjectFile_calls_cases cfg w objectFile k hd with h | h
      · exact ⟨[FsCall.exists cfg.ir2objCacheDir], by rw [h, hcalls], by simp [he]⟩
      · exact ⟨[FsCall.exists cfg.ir2objCacheDir,
          FsCall.copy_file objectFile (storeCacheFileName cfg k)],
          by rw [h, hcalls]; simp, by simp [he]⟩
    · have he2 : w.fs.exists cfg.ir2objCacheDir = false := by simpa using he
      simp only [he2, Bool.false_eq_true, if_false] at hcalls
      rcases cacheObjectFile_calls_cases cfg w objectFile k hd with h | h
      · exact ⟨[FsCall.exists cfg.ir2objCacheDir, FsCall.create_directory cfg.ir2objCacheDir],
          by rw [h, hcalls], by simp [he2]⟩
      · exact ⟨[FsCall.exists cfg.ir2objCacheDir, FsCall.create_directory cfg.ir2objCacheDir,
          FsCall.copy_file objectFile (storeCacheFileName cfg k)],
          by rw [h, hcalls]; simp, by simp [he2]⟩
  · intro he
    have h1 : (cacheObjectFile_dirStep cfg w).1 = false := by rw [hflag]; simp [he]
    obtain ⟨_, _, e3⟩ := cacheObjectFile_dirStep_errors cfg w
    have hex1 := cacheObjectFile_dirStep_exists cfg w _ he
    constructor
    · rcases cacheObjectFile_fs_cases cfg w objectFile k hd with h | ⟨qd, c, hr, _, h⟩
      · rw [h]; exact hex1
      · rw [h]
        exact FS.exists_set _ _ _ _ (FS.resolve_end _ _ _ _ hr).1
          (FS.linkTarget_set_file _ _ _) hex1
    · rw [cacheObjectFile_unfold cfg w objectFile k hd]
      simp only [h1, Bool.false_eq_true, if_false]
      by_cases h3 : (((cacheObjectFile_dirStep cfg w).2).copy_file objectFile
          (storeCacheFileName cfg k)).1 = true
      · simp only [h3, if_true, Outcome.world]
        unfold error
        split
        · right; simp [World.copy_file, e3]
        · left; simp [World.copy_file, e3]
      · left
        simp only [h3, Bool.false_eq_true, if_false]
        simp only [Outcome.world, World.copy_file]
        exact e3
  · intro hn hc
    have he : w.fs.exists cfg.ir2objCacheDir = false := by
      rw [FS.exists_nonlink _ _ (FS.linkTarget_of_none _ _ hn), hn]; simp
    have h1 : (cacheObjectFile_dirStep cfg w).1 = false := by rw [hflag]; simp [he, hc]
    have hex1 := cacheObjectFile_dirStep_ok cfg w h1 (Or.inr hn)
    have hnode : (cacheObjectFile_dirStep cfg w).2.fs.nodes cfg.ir2objCacheDir
        = some Node.dir := by
      rcases cacheObjectFile_dirStep_frame cfg w with h | ⟨_, h⟩
      · rw [h] at hex1; rw [he] at hex1; exact absurd hex1 (by simp)
      · rw [h]; simp [FS.set_nodes]
    refine ⟨he, ?_⟩
    rcases cacheObjectFile_fs_cases cfg w objectFile k hd with h | ⟨qd, c, hr, hq, h⟩
    · rw [h]; exact ⟨hex1, hnode⟩
    · rw [h]
      refine ⟨FS.exists_set _ _ _ _ (FS.resolve_end _ _ _ _ hr).1
        (FS.linkTarget_set_file _ _ _) hex1, ?_⟩
      have hne : cfg.ir2objCacheDir ≠ qd := by
        intro heq
        rw [← heq] at hq
        exact hq hnode
      simp [FS.set_nodes, hne, hnode]
  · obtain ⟨new, hn1, hn2⟩ := cacheLookup_calls cfg w k
    refine ⟨new, hn1, ?_⟩
    intro hc
    obtain ⟨p, hp⟩ := hn2 _ hc
    cases hp

/-- C13 (witness): the first insert into the sample configuration, whose cache
directory path `cache` names nothing yet. -/
theorem cacheObjectFile_creates_directory_iff_witness :
    sampleConfig.ir2objCacheDir ≠ []
      ∧ (World.init sampleFS).fs.nodes sampleConfig.ir2objCacheDir = none
      ∧ ((World.init sampleFS).fs.create_directory sampleConfig.ir2objCacheDir).1 = false
      ∧ (cacheObjectFile sampleConfig (World.init sampleFS) outPath ['k']).world.fs.exists
            sampleConfig.ir2objCacheDir = true
      ∧ (cacheObjectFile sampleConfig (World.init sampleFS) outPath ['k']).world.fs.nodes
            sampleConfig.ir2objCacheDir = some Node.dir :=
  ⟨by decide, by decide, by decide,
    ((cacheObjectFile_creates_directory_iff sampleConfig (World.init sampleFS) outPath ['k']
      (by decide)).2.2.1 (by decide) (by decide)).2⟩

end Ir2objCache
